import Mathlib

/-!
# Verification of boringtun's peer endpoint lifecycle, allowed-IP table and UDP transport

This development embeds the peer/endpoint management code of
`src/boringtun/src/device/peer.rs` and the UDP socket layer of
`src/src/device/udp_unix.rs` as Lean definitions, and proves the stated
properties of the specification against them.

Platform syscall outcomes (socket creation, setsockopt, fcntl, bind, connect,
send) are modelled by an explicit environment value recording, for each call
the code can make, whether the platform reports success or failure (and the
`errno` text reported on failure). Stateful code is modelled by explicit
state passing; every operation additionally returns the trace of platform
calls it performed, so that "performs no socket operation" is expressible.
-/

namespace Boringtun

/-- A socket address, as `std::net::SocketAddr`: either IPv4 or IPv6,
with the IP modelled as its numeric value and a port. -/
inductive SocketAddrM where
  | v4 (ip : Nat) (port : Nat)
  | v6 (ip : Nat) (port : Nat)
deriving DecidableEq, Repr

/-- The address family tag of a socket address (4 or 6), as used by
`connect_endpoint` to choose between `UDPSocket::new` and `UDPSocket::new6`. -/
def SocketAddrM.family : SocketAddrM → Nat
  | .v4 _ _ => 4
  | .v6 _ _ => 6

/-- The error type of `crate::device::Error`, restricted to the variants the
embedded code produces: `Socket`, `Bind`, `Connect`, `FCntl`, `SetSockOpt`,
each wrapping the platform-reported error text. -/
inductive ErrorM where
  | Socket (s : String)
  | Bind (s : String)
  | Connect (s : String)
  | FCntl (s : String)
  | SetSockOpt (s : String)
deriving DecidableEq, Repr

/-- A connected UDP socket as produced by `connect_endpoint`
(`udp_unix.rs`): its address-family version tag, the local port it was bound
to, and the remote address its `connect` was issued against. -/
structure UDPConn where
  version : Nat
  boundPort : Nat
  connectedTo : SocketAddrM
deriving DecidableEq, Repr

/-- `Endpoint` of `peer.rs`: an optional remote address and an optional
connected socket. -/
structure EndpointM where
  addr : Option SocketAddrM
  conn : Option UDPConn
deriving DecidableEq, Repr

/-- The endpoint stored by `Peer::new`: the optionally-configured remote
address, and no connection. -/
def peerNewEndpoint (addr : Option SocketAddrM) : EndpointM :=
  { addr := addr, conn := none }

/-- One platform call performed by the endpoint code, for trace purposes. -/
inductive SysEvent where
  | socketCreated (family : Nat)
  | fwmarkSet (mark : Nat)
  | nonBlockingSet
  | reuseSet
  | boundTo (port : Nat)
  | connectedTo (a : SocketAddrM)
  | closed
  | shutdownCall
deriving DecidableEq, Repr

/-- Platform outcomes for the calls a single `connect_endpoint` run can make:
`none` means the call succeeds, `some e` means it fails with errno text `e`. -/
structure ConnEnv where
  socketRes : Option String
  fwmarkRes : Option String
  nonBlockingRes : Option String
  reuseRes : Option String
  bindRes : Option String
  connectRes : Option String
deriving DecidableEq, Repr

/-- Outcome of `Peer::connect_endpoint`: a panic (the
`"Attempt to connect to undefined endpoint"` branch), an error, or the
connected socket handle returned to the caller. -/
inductive ConnectOutcome where
  | panicked
  | err (e : ErrorM)
  | ok (c : UDPConn)
deriving DecidableEq, Repr

/-- Result of a `connect_endpoint` run: its outcome, the endpoint state after
the run, and the trace of platform calls performed. -/
structure ConnectResult where
  outcome : ConnectOutcome
  state : EndpointM
  log : List SysEvent
deriving DecidableEq, Repr

/-- `Peer::shutdown_endpoint` (peer.rs): if a connection is present, take it
out of the endpoint and call `shutdown` on it; the address is kept.
Returns the new state and the call trace. -/
def shutdown_endpoint (st : EndpointM) : EndpointM × List SysEvent :=
  match st.conn with
  | some _ => ({ st with conn := none }, [SysEvent.shutdownCall])
  | none => (st, [])

/-- `Peer::set_endpoint` (peer.rs): if the stored address already equals
`addr`, do nothing; otherwise shut down and drop any existing connection and
replace the endpoint with `{addr: Some(addr), conn: None}`.
Returns the new state and the call trace. -/
def set_endpoint (addr : SocketAddrM) (st : EndpointM) : EndpointM × List SysEvent :=
  if st.addr = some addr then
    (st, [])
  else
    match st.conn with
    | some _ => ({ addr := some addr, conn := none }, [SysEvent.shutdownCall])
    | none => ({ addr := some addr, conn := none }, [])

/-- `Peer::connect_endpoint` (peer.rs): fail with `Error::Connect("Connected")`
if a connection is already present; panic if no address is stored; otherwise
create a socket of the address's family, optionally set the fwmark, set
non-blocking mode, set address reuse, bind to `port` and connect to the stored
address, storing and returning the resulting socket. Any error after socket
creation drops (closes) the socket and leaves the endpoint unchanged. -/
def connect_endpoint (env : ConnEnv) (port : Nat) (fwmark : Option Nat)
    (st : EndpointM) : ConnectResult :=
  if st.conn.isSome then
    { outcome := .err (.Connect "Connected"), state := st, log := [] }
  else
    match st.addr with
    | none => { outcome := .panicked, state := st, log := [] }
    | some a =>
      match env.socketRes with
      | some e => { outcome := .err (.Socket e), state := st, log := [] }
      | none =>
        let created := [SysEvent.socketCreated a.family]
        match fwmark with
        | some m =>
          match env.fwmarkRes with
          | some e =>
            { outcome := .err (.SetSockOpt e), state := st
              log := created ++ [SysEvent.closed] }
          | none => connectEndpointRest env port a st
              (created ++ [SysEvent.fwmarkSet m])
        | none => connectEndpointRest env port a st created
where
  /-- The `set_non_blocking → set_reuse → bind → connect` tail of
  `connect_endpoint`, after socket creation and optional fwmark. -/
  connectEndpointRest (env : ConnEnv) (port : Nat) (a : SocketAddrM)
      (st : EndpointM) (log0 : List SysEvent) : ConnectResult :=
    match env.nonBlockingRes with
    | some e => { outcome := .err (.FCntl e), state := st
                  log := log0 ++ [SysEvent.closed] }
    | none =>
      match env.reuseRes with
      | some e => { outcome := .err (.SetSockOpt e), state := st
                    log := log0 ++ [SysEvent.nonBlockingSet, SysEvent.closed] }
      | none =>
        match env.bindRes with
        | some e => { outcome := .err (.Bind e), state := st
                      log := log0 ++ [SysEvent.nonBlockingSet, SysEvent.reuseSet,
                                      SysEvent.closed] }
        | none =>
          match env.connectRes with
          | some e => { outcome := .err (.Connect e), state := st
                        log := log0 ++ [SysEvent.nonBlockingSet, SysEvent.reuseSet,
                                        SysEvent.boundTo port, SysEvent.closed] }
          | none =>
            let c : UDPConn := { version := a.family, boundPort := port, connectedTo := a }
            { outcome := .ok c
              state := { addr := some a, conn := some c }
              log := log0 ++ [SysEvent.nonBlockingSet, SysEvent.reuseSet,
                              SysEvent.boundTo port, SysEvent.connectedTo a] }

/-- One endpoint-lifecycle operation of `Peer`. -/
inductive EndpointOp where
  | set (a : SocketAddrM)
  | connect (env : ConnEnv) (port : Nat) (fwmark : Option Nat)
  | shutdown
deriving Repr

/-- The endpoint state after applying one operation. -/
def applyOp (st : EndpointM) : EndpointOp → EndpointM
  | .set a => (set_endpoint a st).1
  | .connect env port fwmark => (connect_endpoint env port fwmark st).state
  | .shutdown => (shutdown_endpoint st).1

/-- The endpoint state after applying a sequence of operations. -/
def applyOps (st : EndpointM) (ops : List EndpointOp) : EndpointM :=
  ops.foldl applyOp st

/-- The endpoint invariant: any stored connection was connected to the
currently stored remote address. -/
def EndpointInv (st : EndpointM) : Prop :=
  ∀ c, st.conn = some c → st.addr = some c.connectedTo

/-- `set_endpoint` preserves the endpoint invariant. -/
theorem set_endpoint_inv (a : SocketAddrM) (st : EndpointM) (h : EndpointInv st) :
    EndpointInv (set_endpoint a st).1 := by
  unfold set_endpoint
  by_cases hc : st.addr = some a
  · simpa [hc] using h
  · cases hconn : st.conn with
    | none => intro c hcc; simp [hc, hconn] at hcc
    | some c0 => intro c hcc; simp [hc, hconn] at hcc

/-- `shutdown_endpoint` preserves the endpoint invariant. -/
theorem shutdown_endpoint_inv (st : EndpointM) (h : EndpointInv st) :
    EndpointInv (shutdown_endpoint st).1 := by
  unfold shutdown_endpoint
  cases hconn : st.conn with
  | none => simpa [hconn] using h
  | some c0 => intro c hcc; simp [hconn] at hcc

/-- `connect_endpoint` preserves the endpoint invariant. -/
theorem connect_endpoint_inv (env : ConnEnv) (port : Nat) (fwmark : Option Nat)
    (st : EndpointM) (h : EndpointInv st) :
    EndpointInv (connect_endpoint env port fwmark st).state := by
  unfold connect_endpoint
  by_cases hc : st.conn.isSome
  · simpa [hc] using h
  · cases haddr : st.addr with
    | none => simpa [hc, haddr] using h
    | some a =>
      cases hsock : env.socketRes with
      | some e => simpa [hc, haddr, hsock] using h
      | none =>
        have hrest : ∀ log0, EndpointInv
            (connect_endpoint.connectEndpointRest env port a st log0).state := by
          intro log0
          unfold connect_endpoint.connectEndpointRest
          cases env.nonBlockingRes with
          | some e => simpa using h
          | none =>
            cases env.reuseRes with
            | some e => simpa using h
            | none =>
              cases env.bindRes with
              | some e => simpa using h
              | none =>
                cases env.connectRes with
                | some e => simpa using h
                | none => intro c hcc; simp at hcc; simp [← hcc]
        cases fwmark with
        | none => simpa [hc, haddr, hsock] using hrest _
        | some m =>
          cases hfw : env.fwmarkRes with
          | some e => simpa [hc, haddr, hsock, hfw] using h
          | none => simpa [hc, haddr, hsock, hfw] using hrest _

/-- Applying any single endpoint operation preserves the invariant. -/
theorem applyOp_inv (st : EndpointM) (op : EndpointOp) (h : EndpointInv st) :
    EndpointInv (applyOp st op) := by
  cases op with
  | set a => exact set_endpoint_inv a st h
  | connect env port fwmark => exact connect_endpoint_inv env port fwmark st h
  | shutdown => exact shutdown_endpoint_inv st h

/-- Applying any sequence of endpoint operations preserves the invariant. -/
theorem applyOps_inv (ops : List EndpointOp) (st : EndpointM) (h : EndpointInv st) :
    EndpointInv (applyOps st ops) := by
  induction ops generalizing st with
  | nil => simpa [applyOps] using h
  | cons op rest ih =>
    rw [applyOps, List.foldl_cons]
    exact ih _ (applyOp_inv st op h)

/-- C1: after any sequence of `set_endpoint`, `connect_endpoint` and
`shutdown_endpoint` operations starting from the endpoint built by
`Peer::new`, any connection stored in the endpoint was connected to the
endpoint's current remote address: a transport is never paired with a stale
address. -/
theorem connect_set_shutdown_endpoint_addr_invariant
    (addr0 : Option SocketAddrM) (ops : List EndpointOp) :
    EndpointInv (applyOps (peerNewEndpoint addr0) ops) := by
  apply applyOps_inv
  intro c hc
  simp [peerNewEndpoint] at hc

/-- The tail of `connect_endpoint` either fails, leaving the endpoint state
unchanged, or succeeds, storing the newly connected socket together with the
address it was connected to. -/
theorem connectEndpointRest_cases (env : ConnEnv) (port : Nat) (a : SocketAddrM)
    (st : EndpointM) (log0 : List SysEvent) :
    (∃ e, (connect_endpoint.connectEndpointRest env port a st log0).outcome = .err e ∧
          (connect_endpoint.connectEndpointRest env port a st log0).state = st) ∨
    (∃ c, (connect_endpoint.connectEndpointRest env port a st log0).outcome = .ok c ∧
          (connect_endpoint.connectEndpointRest env port a st log0).state =
            { addr := some a, conn := some c }) := by
  unfold connect_endpoint.connectEndpointRest
  cases hnb : env.nonBlockingRes with
  | some e => exact Or.inl ⟨_, rfl, rfl⟩
  | none =>
    cases hre : env.reuseRes with
    | some e => exact Or.inl ⟨_, rfl, rfl⟩
    | none =>
      cases hbi : env.bindRes with
      | some e => exact Or.inl ⟨_, rfl, rfl⟩
      | none =>
        cases hco : env.connectRes with
        | some e => exact Or.inl ⟨_, rfl, rfl⟩
        | none => exact Or.inr ⟨_, rfl, rfl⟩

/-- C2: `set_endpoint` with the currently stored address is a no-op performing
no platform call (in particular no shutdown); with any other address it
replaces the endpoint by the new address with no connection, shutting down the
prior connection exactly when one was present. -/
theorem set_endpoint_same_noop_diff_replaces (st : EndpointM) (a : SocketAddrM) :
    (st.addr = some a → set_endpoint a st = (st, [])) ∧
    (st.addr ≠ some a →
      set_endpoint a st =
        ({ addr := some a, conn := none },
         if st.conn.isSome then [SysEvent.shutdownCall] else [])) := by
  constructor
  · intro h; simp [set_endpoint, h]
  · intro h
    cases hc : st.conn with
    | none => simp [set_endpoint, h, hc]
    | some c => simp [set_endpoint, h, hc]

/-- Closed instance of the C2 theorem at concrete endpoints. -/
theorem set_endpoint_same_noop_diff_replaces_witness :
    (set_endpoint (SocketAddrM.v4 167772161 51820)
        { addr := some (SocketAddrM.v4 167772161 51820)
          conn := some { version := 4, boundPort := 7, connectedTo := SocketAddrM.v4 167772161 51820 } }
      = ({ addr := some (SocketAddrM.v4 167772161 51820)
           conn := some { version := 4, boundPort := 7, connectedTo := SocketAddrM.v4 167772161 51820 } }, [])) ∧
    (set_endpoint (SocketAddrM.v6 1 51820)
        { addr := some (SocketAddrM.v4 167772161 51820)
          conn := some { version := 4, boundPort := 7, connectedTo := SocketAddrM.v4 167772161 51820 } }
      = ({ addr := some (SocketAddrM.v6 1 51820), conn := none }, [SysEvent.shutdownCall])) := by
  constructor
  · exact (set_endpoint_same_noop_diff_replaces _ _).1 rfl
  · have h := (set_endpoint_same_noop_diff_replaces
      { addr := some (SocketAddrM.v4 167772161 51820)
        conn := some { version := 4, boundPort := 7, connectedTo := SocketAddrM.v4 167772161 51820 } }
      (SocketAddrM.v6 1 51820)).2 (by decide)
    simpa using h

/-- C3: calling `connect_endpoint` while a connection is already stored
returns exactly `Error::Connect("Connected")`, performs no platform call at
all (empty trace: no socket creation or configuration), and leaves the
endpoint — including the stored transport — unchanged. -/
theorem connect_endpoint_already_connected (st : EndpointM) (env : ConnEnv)
    (port : Nat) (fwmark : Option Nat) (c : UDPConn) (h : st.conn = some c) :
    connect_endpoint env port fwmark st =
      { outcome := .err (.Connect "Connected"), state := st, log := [] } := by
  unfold connect_endpoint
  simp [h]

/-- Closed instance of the C3 theorem: a second `connect_endpoint`, even with
an environment in which every platform call would succeed, returns the
already-connected error, an unchanged endpoint and an empty trace. -/
theorem connect_endpoint_already_connected_witness :
    connect_endpoint
      { socketRes := none, fwmarkRes := none, nonBlockingRes := none
        reuseRes := none, bindRes := none, connectRes := none } 51820 none
      { addr := some (SocketAddrM.v4 167772161 51820)
        conn := some { version := 4, boundPort := 7, connectedTo := SocketAddrM.v4 167772161 51820 } }
      = { outcome := .err (.Connect "Connected")
          state := { addr := some (SocketAddrM.v4 167772161 51820)
                     conn := some { version := 4, boundPort := 7, connectedTo := SocketAddrM.v4 167772161 51820 } }
          log := [] } :=
  connect_endpoint_already_connected _ _ _ _
    { version := 4, boundPort := 7, connectedTo := SocketAddrM.v4 167772161 51820 } rfl

/-- C8: `connect_endpoint` never reaches the
`"Attempt to connect to undefined endpoint"` panic when a remote address is
stored, and always reaches it when no remote address is stored (and no
connection is present). -/
theorem connect_endpoint_panic_iff_no_addr (env : ConnEnv) (port : Nat)
    (fwmark : Option Nat) (st : EndpointM) :
    (∀ a, st.addr = some a →
      (connect_endpoint env port fwmark st).outcome ≠ .panicked) ∧
    (st.addr = none → st.conn = none →
      (connect_endpoint env port fwmark st).outcome = .panicked) := by
  constructor
  · intro a ha
    unfold connect_endpoint
    cases hc : st.conn with
    | some c => simp [hc]
    | none =>
      cases hs : env.socketRes with
      | some e => simp [hc, ha, hs]
      | none =>
        have hrest : ∀ log0,
            (connect_endpoint.connectEndpointRest env port a st log0).outcome ≠
              ConnectOutcome.panicked := by
          intro log0
          rcases connectEndpointRest_cases env port a st log0 with ⟨e, he, _⟩ | ⟨c, hcc, _⟩
          · rw [he]; intro h; cases h
          · rw [hcc]; intro h; cases h
        cases fwmark with
        | none => simpa [hc, ha, hs] using hrest _
        | some m =>
          cases hf : env.fwmarkRes with
          | some e => simp [hc, ha, hs, hf]
          | none => simpa [hc, ha, hs, hf] using hrest _
  · intro ha hc
    unfold connect_endpoint
    simp [ha, hc]

/-- Closed instance of the C8 theorem: with an address stored the panic
branch is not taken; with no address stored it is. -/
theorem connect_endpoint_panic_iff_no_addr_witness :
    ((connect_endpoint
        { socketRes := none, fwmarkRes := none, nonBlockingRes := none
          reuseRes := none, bindRes := none, connectRes := none } 51820 none
        { addr := some (SocketAddrM.v4 167772161 51820), conn := none }).outcome ≠
      ConnectOutcome.panicked) ∧
    ((connect_endpoint
        { socketRes := none, fwmarkRes := none, nonBlockingRes := none
          reuseRes := none, bindRes := none, connectRes := none } 51820 none
        { addr := none, conn := none }).outcome = ConnectOutcome.panicked) := by
  constructor
  · exact (connect_endpoint_panic_iff_no_addr _ _ _ _).1
      (SocketAddrM.v4 167772161 51820) rfl
  · exact (connect_endpoint_panic_iff_no_addr _ _ _ _).2 rfl rfl

/-- C10: if any step of `connect_endpoint` fails for a peer with an address
stored and no connection, an error is returned and the endpoint is left
completely unchanged, so a later `connect_endpoint` can be attempted. -/
theorem connect_endpoint_error_leaves_endpoint (env : ConnEnv) (port : Nat)
    (fwmark : Option Nat) (st : EndpointM) (a : SocketAddrM) (e : ErrorM)
    (ha : st.addr = some a) (hc : st.conn = none)
    (he : (connect_endpoint env port fwmark st).outcome = .err e) :
    (connect_endpoint env port fwmark st).state = st := by
  unfold connect_endpoint at he ⊢
  cases hs : env.socketRes with
  | some e2 => simp [ha, hc, hs]
  | none =>
    have hrest : ∀ log0,
        (connect_endpoint.connectEndpointRest env port a st log0).outcome = .err e →
        (connect_endpoint.connectEndpointRest env port a st log0).state = st := by
      intro log0 hlog
      rcases connectEndpointRest_cases env port a st log0 with ⟨e2, he2, hst⟩ | ⟨c, hcc, _⟩
      · exact hst
      · rw [hcc] at hlog; cases hlog
    cases fwmark with
    | none =>
      simp only [ha, hc, hs, Option.isSome_none, Bool.false_eq_true, if_false] at he ⊢
      exact hrest _ he
    | some m =>
      cases hf : env.fwmarkRes with
      | some e2 => simp [ha, hc, hs, hf]
      | none =>
        simp only [ha, hc, hs, hf, Option.isSome_none, Bool.false_eq_true, if_false] at he ⊢
        exact hrest _ he

/-- Closed instance of the C10 theorem: a failing `bind` returns an error and
leaves the endpoint unchanged. -/
theorem connect_endpoint_error_leaves_endpoint_witness :
    (connect_endpoint
        { socketRes := none, fwmarkRes := none, nonBlockingRes := none
          reuseRes := none, bindRes := some "EADDRINUSE", connectRes := none } 51820 none
        { addr := some (SocketAddrM.v4 167772161 51820), conn := none }).state =
      { addr := some (SocketAddrM.v4 167772161 51820), conn := none } :=
  connect_endpoint_error_leaves_endpoint _ 51820 none _
    (SocketAddrM.v4 167772161 51820) (ErrorM.Bind "EADDRINUSE") rfl rfl (by decide)

/-! ## UDP send operations (`udp_unix.rs`) -/

/-- Result of a send operation: the Rust code can panic (the `&buf[0]`
indexing of an empty buffer, or a failed `assert_eq!` on the address-family
version), otherwise it returns a byte count. -/
inductive SendResult where
  | panicked
  | sent (n : Nat)
deriving DecidableEq, Repr

/-- `UDPSocket::write_fd` (udp_unix.rs): performs
`send(fd, &src[0], src.len(), 0)` and maps a `-1` return to `0`, any other
return to itself. `&src[0]` panics when `src` is empty. `sendRes` is the
platform's return value of the `send` call. -/
def write_fd (src : List Nat) (sendRes : Int) : SendResult :=
  if src.isEmpty then .panicked
  else if sendRes = -1 then .sent 0 else .sent sendRes.toNat

/-- `UDPSocket::sendto4` (udp_unix.rs): asserts the socket's version is 4,
then performs `sendto(fd, &buf[0], ...)` with the same `-1 ↦ 0`
convention. -/
def sendto4 (version : Nat) (buf : List Nat) (sendRes : Int) : SendResult :=
  if version ≠ 4 then .panicked
  else if buf.isEmpty then .panicked
  else if sendRes = -1 then .sent 0 else .sent sendRes.toNat

/-- `UDPSocket::sendto6` (udp_unix.rs): asserts the socket's version is 6,
then performs `sendto(fd, &buf[0], ...)` with the same `-1 ↦ 0`
convention. -/
def sendto6 (version : Nat) (buf : List Nat) (sendRes : Int) : SendResult :=
  if version ≠ 6 then .panicked
  else if buf.isEmpty then .panicked
  else if sendRes = -1 then .sent 0 else .sent sendRes.toNat

/-- `Sock::sendto` for `UDPSocket` (udp_unix.rs): dispatches on the
destination's address family. -/
def sendto (version : Nat) (buf : List Nat) (dst : SocketAddrM)
    (sendRes : Int) : SendResult :=
  match dst with
  | .v4 _ _ => sendto4 version buf sendRes
  | .v6 _ _ => sendto6 version buf sendRes

/-- C7 counterexample: on an empty buffer the send operation panics at
`&src[0]` instead of returning `0`, so "for every buffer ... returns 0" fails
at the concrete input `src = []` with a failing platform send. -/
theorem write_fd_empty_buffer_panics :
    write_fd [] (-1) = SendResult.panicked ∧
    write_fd [] (-1) ≠ SendResult.sent 0 := by
  constructor
  · rfl
  · intro h; cases h

/-- C7 (amended to non-empty buffers): on every non-empty buffer, `write`
(connected send) and `sendto` (unconnected send) return `0` when the platform
send fails with `-1`, and the platform's byte count otherwise; in both cases
the value is an ordinary count, never a distinguishable error. -/
theorem send_ops_zero_on_failure (buf : List Nat) (dst : SocketAddrM) (r : Int)
    (hb : buf ≠ []) :
    (r = -1 →
      write_fd buf r = .sent 0 ∧ sendto dst.family buf dst r = .sent 0) ∧
    (0 ≤ r →
      write_fd buf r = .sent r.toNat ∧
      sendto dst.family buf dst r = .sent r.toNat) := by
  have hbe : buf.isEmpty = false := by
    cases buf with
    | nil => exact absurd rfl hb
    | cons x xs => rfl
  constructor
  · intro hr
    constructor
    · simp [write_fd, hbe, hr]
    · cases dst <;> simp [sendto, sendto4, sendto6, SocketAddrM.family, hbe, hr]
  · intro hr
    have hne : ¬ r = -1 := by omega
    constructor
    · simp [write_fd, hbe, hne]
    · cases dst <;> simp [sendto, sendto4, sendto6, SocketAddrM.family, hbe, hne]

/-- Closed instance of the amended C7 theorem at a concrete buffer: a failed
send returns 0, a successful send of 3 bytes returns 3. -/
theorem send_ops_zero_on_failure_witness :
    (write_fd [1, 2, 3] (-1) = SendResult.sent 0 ∧
      sendto (SocketAddrM.v4 167772161 51820).family [1, 2, 3]
        (SocketAddrM.v4 167772161 51820) (-1) = SendResult.sent 0) ∧
    (write_fd [1, 2, 3] 3 = SendResult.sent 3 ∧
      sendto (SocketAddrM.v4 167772161 51820).family [1, 2, 3]
        (SocketAddrM.v4 167772161 51820) 3 = SendResult.sent 3) := by
  constructor
  · exact (send_ops_zero_on_failure [1, 2, 3] (SocketAddrM.v4 167772161 51820)
      (-1) (by decide)).1 rfl
  · have h := (send_ops_zero_on_failure [1, 2, 3] (SocketAddrM.v4 167772161 51820)
      3 (by decide)).2 (by decide)
    simpa using h

/-! ## IP addresses and the allowed-IP table -/

/-- An IP address, as `std::net::IpAddr`: four octets for IPv4, eight 16-bit
groups (most significant first) for IPv6. -/
inductive IpAddrM where
  | v4 (a b c d : Nat)
  | v6 (gs : List Nat)
deriving DecidableEq, Repr

/-- The numeric value of an address (32-bit for v4, 128-bit for v6). -/
def IpAddrM.value : IpAddrM → Nat
  | .v4 a b c d => ((a * 256 + b) * 256 + c) * 256 + d
  | .v6 gs => gs.foldl (fun acc g => acc * 65536 + g) 0

/-- The bit width of an address's family: 32 for v4, 128 for v6. -/
def IpAddrM.width : IpAddrM → Nat
  | .v4 _ _ _ _ => 32
  | .v6 _ => 128

/-- Whether two addresses belong to the same family. -/
def IpAddrM.sameFamily : IpAddrM → IpAddrM → Bool
  | .v4 _ _ _ _, .v4 _ _ _ _ => true
  | .v6 _, .v6 _ => true
  | _, _ => false

/-- Modelled from the spec: CIDR containment for the allowed-IP table (the
body of `crate::device::AllowedIps` is not under `src/`). A range
`netAddr/cidr` contains `ip` when the families agree and the `cidr` leading
bits of the two addresses coincide. -/
def containsIp (netAddr : IpAddrM) (cidr : Nat) (ip : IpAddrM) : Bool :=
  netAddr.sameFamily ip &&
    netAddr.value / 2 ^ (netAddr.width - cidr) = ip.value / 2 ^ (ip.width - cidr)

/-- One entry of the allowed-IP table: a CIDR range and its associated
marker. -/
structure IpEntry (α : Type) where
  addr : IpAddrM
  cidr : Nat
  val : α
deriving DecidableEq, Repr

/-- Modelled from the spec: the per-peer `AllowedIps` table — a set of
(range, marker) entries keyed by CIDR (the implementation, a trie, is not
under `src/`; the spec describes a set of entries with longest-prefix-match
lookup). -/
structure AllowedIpsM (α : Type) where
  entries : List (IpEntry α)
deriving DecidableEq, Repr

/-- Modelled from the spec: longest-prefix-match lookup — among the entries
whose range contains `ip`, an entry with the longest prefix determines the
result. -/
def findBest (ip : IpAddrM) : List (IpEntry α) → Option (IpEntry α)
  | [] => none
  | e :: rest =>
    let r := findBest ip rest
    if containsIp e.addr e.cidr ip then
      match r with
      | none => some e
      | some b => if b.cidr < e.cidr then some e else some b
    else r

/-- `AllowedIps::find`: the marker of the longest-prefix match, if any. -/
def AllowedIpsM.find (t : AllowedIpsM α) (ip : IpAddrM) : Option α :=
  (findBest ip t.entries).map IpEntry.val

/-- `Peer::is_allowed_ip` (peer.rs): `self.allowed_ips.read().find(addr).is_some()`. -/
def is_allowed_ip (t : AllowedIpsM α) (ip : IpAddrM) : Bool :=
  (t.find ip).isSome

/-- `AllowedIP` of peer.rs: an address plus a prefix length. -/
structure AllowedIPM where
  addr : IpAddrM
  cidr : Nat
deriving DecidableEq, Repr

/-- Modelled from the spec: `AllowedIps::insert` — adds one range,
overwriting any identical existing range. -/
def AllowedIpsM.insert (t : AllowedIpsM α) (addr : IpAddrM) (cidr : Nat)
    (v : α) : AllowedIpsM α :=
  { entries := (t.entries.filter fun e =>
      !(decide (e.addr = addr) && decide (e.cidr = cidr))) ++ [⟨addr, cidr, v⟩] }

/-- `Peer::set_allowed_ips` (peer.rs): replaces the whole table with the
entries of the given list (prior contents are discarded). -/
def set_allowed_ips (l : List AllowedIPM) (_t : AllowedIpsM Unit) :
    AllowedIpsM Unit :=
  l.foldl (fun t ip => t.insert ip.addr ip.cidr ()) { entries := [] }

/-- `Peer::add_allowed_ips` (peer.rs): inserts each range of the list,
retaining existing entries. -/
def add_allowed_ips (l : List AllowedIPM) (t : AllowedIpsM Unit) :
    AllowedIpsM Unit :=
  l.foldl (fun t ip => t.insert ip.addr ip.cidr ()) t

/-- `findBest` is correct for longest-prefix match: it returns `none` exactly
when no entry contains the address, and otherwise an entry containing the
address whose prefix length is maximal among the containing entries. -/
theorem findBest_longest (ip : IpAddrM) (l : List (IpEntry α)) :
    (findBest ip l = none → ∀ e ∈ l, containsIp e.addr e.cidr ip = false) ∧
    (∀ b, findBest ip l = some b → b ∈ l ∧ containsIp b.addr b.cidr ip = true ∧
      ∀ e ∈ l, containsIp e.addr e.cidr ip = true → e.cidr ≤ b.cidr) := by
  induction l with
  | nil => exact ⟨fun _ e he => absurd he (List.not_mem_nil e), fun b hb => by cases hb⟩
  | cons e0 rest ih =>
    constructor
    · intro hn e he
      rw [findBest] at hn
      by_cases hc : containsIp e0.addr e0.cidr ip
      · simp only [hc, if_true] at hn
        cases hr : findBest ip rest with
        | none => rw [hr] at hn; cases hn
        | some b => rw [hr] at hn; by_cases hlt : b.cidr < e0.cidr <;> simp [hlt] at hn
      · simp only [hc, if_false] at hn
        rcases List.mem_cons.1 he with rfl | he2
        · simpa using hc
        · exact (ih.1 hn) e he2
    · intro b hb
      rw [findBest] at hb
      by_cases hc : containsIp e0.addr e0.cidr ip
      · simp only [hc, if_true] at hb
        cases hr : findBest ip rest with
        | none =>
          rw [hr] at hb
          cases hb
          refine ⟨List.mem_cons_self _ _, hc, ?_⟩
          intro e he hce
          rcases List.mem_cons.1 he with rfl | he2
          · exact le_refl _
          · exact absurd hce (by simp [(ih.1 hr) e he2])
        | some b0 =>
          rw [hr] at hb
          rcases (ih.2 b0 hr) with ⟨hb0mem, hb0c, hb0max⟩
          by_cases hlt : b0.cidr < e0.cidr
          · simp only [hlt, if_true] at hb
            cases hb
            refine ⟨List.mem_cons_self _ _, hc, ?_⟩
            intro e he hce
            rcases List.mem_cons.1 he with rfl | he2
            · exact le_refl _
            · exact le_trans (hb0max e he2 hce) (le_of_lt hlt)
          · simp only [hlt, if_false] at hb
            cases hb
            refine ⟨List.mem_cons_of_mem _ hb0mem, hb0c, ?_⟩
            intro e he hce
            rcases List.mem_cons.1 he with rfl | he2
            · omega
            · exact hb0max e he2 hce
      · simp only [hc, if_false] at hb
        rcases (ih.2 b hb) with ⟨hbmem, hbc, hbmax⟩
        refine ⟨List.mem_cons_of_mem _ hbmem, hbc, ?_⟩
        intro e he hce
        rcases List.mem_cons.1 he with rfl | he2
        · exact absurd hce (by simp [hc])
        · exact hbmax e he2 hce

/-- C4: `is_allowed_ip` returns true exactly when some stored range contains
the address; any value `find` returns is the marker of a containing range of
maximal prefix length (longest-prefix match); and concretely, with
`10.0.0.0/8` and `10.0.0.0/24` both stored (in either order), looking up
`10.0.0.5` returns the marker of the `/24` entry. -/
theorem allowed_ips_longest_prefix_match (t : AllowedIpsM α) (ip : IpAddrM) :
    (is_allowed_ip t ip = true ↔
      ∃ e ∈ t.entries, containsIp e.addr e.cidr ip = true) ∧
    (∀ v, t.find ip = some v →
      ∃ b ∈ t.entries, containsIp b.addr b.cidr ip = true ∧ b.val = v ∧
        ∀ e ∈ t.entries, containsIp e.addr e.cidr ip = true → e.cidr ≤ b.cidr) ∧
    (AllowedIpsM.find
        { entries := [⟨IpAddrM.v4 10 0 0 0, 8, (1 : Nat)⟩,
                      ⟨IpAddrM.v4 10 0 0 0, 24, 2⟩] } (IpAddrM.v4 10 0 0 5)
      = some 2 ∧
     AllowedIpsM.find
        { entries := [⟨IpAddrM.v4 10 0 0 0, 24, (2 : Nat)⟩,
                      ⟨IpAddrM.v4 10 0 0 0, 8, 1⟩] } (IpAddrM.v4 10 0 0 5)
      = some 2) := by
  refine ⟨?_, ?_, by decide, by decide⟩
  · rw [is_allowed_ip, AllowedIpsM.find]
    cases hfb : findBest ip t.entries with
    | none =>
      simp only [Option.map_none', Option.isSome_none]
      constructor
      · intro h; cases h
      · rintro ⟨e, he, hce⟩
        have := (findBest_longest ip t.entries).1 hfb e he
        rw [hce] at this; cases this
    | some b =>
      simp only [Option.map_some', Option.isSome_some, true_iff]
      rcases (findBest_longest ip t.entries).2 b hfb with ⟨hbmem, hbc, _⟩
      exact ⟨b, hbmem, hbc⟩
  · intro v hv
    rw [AllowedIpsM.find] at hv
    cases hfb : findBest ip t.entries with
    | none => rw [hfb] at hv; cases hv
    | some b =>
      rw [hfb] at hv
      rcases (findBest_longest ip t.entries).2 b hfb with ⟨hbmem, hbc, hbmax⟩
      exact ⟨b, hbmem, hbc, by simpa using hv, hbmax⟩

/-- Closed instance of the C4 theorem: applying it to the concrete
overlapping `/8` and `/24` table produces a containing entry of maximal
prefix length carrying the returned marker. -/
theorem allowed_ips_longest_prefix_match_witness :
    ∃ b ∈ ([⟨IpAddrM.v4 10 0 0 0, 8, (1 : Nat)⟩,
            ⟨IpAddrM.v4 10 0 0 0, 24, 2⟩] : List (IpEntry Nat)),
      containsIp b.addr b.cidr (IpAddrM.v4 10 0 0 5) = true ∧ b.val = 2 ∧
        ∀ e ∈ ([⟨IpAddrM.v4 10 0 0 0, 8, (1 : Nat)⟩,
                ⟨IpAddrM.v4 10 0 0 0, 24, 2⟩] : List (IpEntry Nat)),
          containsIp e.addr e.cidr (IpAddrM.v4 10 0 0 5) = true → e.cidr ≤ b.cidr :=
  (allowed_ips_longest_prefix_match
    { entries := [⟨IpAddrM.v4 10 0 0 0, 8, (1 : Nat)⟩, ⟨IpAddrM.v4 10 0 0 0, 24, 2⟩] }
    (IpAddrM.v4 10 0 0 5)).2.1 2 (by decide)

/-- Every entry of the table built by `set_allowed_ips` has the range of some
element of the installed list. -/
theorem foldl_insert_mem (B : List AllowedIPM) :
    ∀ (acc : AllowedIpsM Unit) (e : IpEntry Unit),
      e ∈ (B.foldl (fun t ip => t.insert ip.addr ip.cidr ()) acc).entries →
      e ∈ acc.entries ∨ ∃ b ∈ B, e.addr = b.addr ∧ e.cidr = b.cidr := by
  induction B with
  | nil => intro acc e he; exact Or.inl (by simpa using he)
  | cons b rest ih =>
    intro acc e he
    rw [List.foldl_cons] at he
    rcases ih _ e he with hacc | ⟨b2, hb2, h⟩
    · rw [AllowedIpsM.insert] at hacc
      rcases List.mem_append.1 hacc with hf | hnew
      · exact Or.inl (List.mem_of_mem_filter hf)
      · simp only [List.mem_singleton] at hnew
        exact Or.inr ⟨b, List.mem_cons_self b rest, by simp [hnew]⟩
    · exact Or.inr ⟨b2, List.mem_cons_of_mem _ hb2, h⟩

/-- C6: `set_allowed_ips` fully replaces prior contents: after installing
list `A` and then list `B`, an address contained in no range of `B` is not
allowed, even if some range of `A` (or of the original table) contained
it. -/
theorem set_allowed_ips_replaces_contents (t : AllowedIpsM Unit)
    (A B : List AllowedIPM) (ip : IpAddrM)
    (h : ∀ b ∈ B, containsIp b.addr b.cidr ip = false) :
    is_allowed_ip (set_allowed_ips B (set_allowed_ips A t)) ip = false := by
  rw [is_allowed_ip, AllowedIpsM.find]
  cases hfb : findBest ip (set_allowed_ips B (set_allowed_ips A t)).entries with
  | none => rfl
  | some b =>
    rcases (findBest_longest ip _).2 b hfb with ⟨hbmem, hbc, _⟩
    rw [set_allowed_ips] at hbmem
    rcases foldl_insert_mem B _ b hbmem with hin | ⟨b2, hb2, ha, hc⟩
    · exact absurd hin (List.not_mem_nil b)
    · rw [ha, hc] at hbc
      rw [h b2 hb2] at hbc
      cases hbc

/-- Closed instance of the C6 theorem: after `set_allowed_ips [10.0.0.0/8]`
then `set_allowed_ips [192.168.0.0/16]`, the address `10.0.0.5` (matched only
by the first list) is no longer allowed. -/
theorem set_allowed_ips_replaces_contents_witness :
    is_allowed_ip
      (set_allowed_ips [⟨IpAddrM.v4 192 168 0 0, 16⟩]
        (set_allowed_ips [⟨IpAddrM.v4 10 0 0 0, 8⟩] { entries := [] }))
      (IpAddrM.v4 10 0 0 5) = false :=
  set_allowed_ips_replaces_contents { entries := [] }
    [⟨IpAddrM.v4 10 0 0 0, 8⟩] [⟨IpAddrM.v4 192 168 0 0, 16⟩]
    (IpAddrM.v4 10 0 0 5) (by decide)

/-! ## Rust std IP address parsing (`core::net::parser`)

`impl FromStr for AllowedIP` in peer.rs calls `str::parse::<IpAddr>()` and
`str::parse::<u8>()`; the behavior of those standard-library parsers is
embedded here. Parsing functions take a `List Char` and return `none` or the
parsed value with the unconsumed remainder (Rust's `read_atomically` resets
the position on failure, which the `Option` return models exactly). -/

/-- `char::to_digit(radix)`: `0`-`9` valued 0-9, then letters
case-insensitively valued 10-35; defined when the value is below the
radix. -/
def toDigit (c : Char) (radix : Nat) : Option Nat :=
  let v : Option Nat :=
    if '0' ≤ c ∧ c ≤ '9' then some (c.toNat - 48)
    else if 'a' ≤ c ∧ c ≤ 'z' then some (c.toNat - 97 + 10)
    else if 'A' ≤ c ∧ c ≤ 'Z' then some (c.toNat - 65 + 10)
    else none
  match v with
  | some d => if d < radix then some d else none
  | none => none

/-- The greedy digit-reading loop of `Parser::read_number`: the maximal
prefix of digits of the given radix, and the remainder. -/
def readDigits (radix : Nat) : List Char → List Nat × List Char
  | [] => ([], [])
  | c :: rest =>
    match toDigit c radix with
    | some d =>
      let p := readDigits radix rest
      (d :: p.1, p.2)
    | none => ([], c :: rest)

/-- The value `read_number` accumulates over a digit list (most significant
digit first). -/
def digitsVal (radix : Nat) (ds : List Nat) : Nat :=
  ds.foldl (fun acc d => acc * radix + d) 0

/-- `Parser::read_number`: reads digits greedily; fails on an empty digit
run, on more than `maxDigits` digits, on overflow of the target integer type
(bounded by `maxVal`: 255 for the `u8` octets, 65535 for the `u16` groups),
and on a forbidden leading zero. -/
def readNumber (radix maxDigits maxVal : Nat) (allowZeroPrefix : Bool)
    (s : List Char) : Option (Nat × List Char) :=
  let p := readDigits radix s
  if p.1.isEmpty then none
  else if maxDigits < p.1.length then none
  else if maxVal < digitsVal radix p.1 then none
  else if !allowZeroPrefix && p.1.head? = some 0 && 1 < p.1.length then none
  else some (digitsVal radix p.1, p.2)

/-- `Parser::read_given_char`. -/
def readGivenChar (c : Char) : List Char → Option (Unit × List Char)
  | [] => none
  | c2 :: rest => if c2 = c then some ((), rest) else none

/-- `Parser::read_separator`: for a non-first item (`0 < i`), requires the
separator character before the inner item; atomic. -/
def readSeparator (sep : Char) (i : Nat)
    (inner : List Char → Option (α × List Char))
    (s : List Char) : Option (α × List Char) :=
  if i = 0 then inner s
  else
    match readGivenChar sep s with
    | none => none
    | some (_, r) => inner r

/-- `Parser::read_ipv4_addr`: four decimal octets (each at most 3 digits,
at most 255, no leading zero) separated by `.`. -/
def readIpv4Addr (s : List Char) : Option ((Nat × Nat × Nat × Nat) × List Char) :=
  match readSeparator '.' 0 (readNumber 10 3 255 false) s with
  | none => none
  | some (a, r1) =>
    match readSeparator '.' 1 (readNumber 10 3 255 false) r1 with
    | none => none
    | some (b, r2) =>
      match readSeparator '.' 2 (readNumber 10 3 255 false) r2 with
      | none => none
      | some (c, r3) =>
        match readSeparator '.' 3 (readNumber 10 3 255 false) r3 with
        | none => none
        | some (d, r4) => some ((a, b, c, d), r4)

/-- The `read_groups` helper of `Parser::read_ipv6_addr`: reads up to `rem`
more `:`-separated 16-bit hex groups at running separator index `i`; at every
position except the last it first attempts an embedded trailing IPv4 address,
which, when present, contributes two groups and ends the read. Returns the
groups read, whether an embedded IPv4 address ended the read, and the
remainder. -/
def readGroups (rem i : Nat) (s : List Char) : List Nat × Bool × List Char :=
  match rem with
  | 0 => ([], false, s)
  | rem2 + 1 =>
    match (if 1 ≤ rem2 then readSeparator ':' i readIpv4Addr s else none) with
    | some ((a, b, c, d), rest) => ([a * 256 + b, c * 256 + d], true, rest)
    | none =>
      match readSeparator ':' i (readNumber 16 4 65535 true) s with
      | some (g, rest) =>
        let p := readGroups rem2 (i + 1) rest
        (g :: p.1, p.2.1, p.2.2)
      | none => ([], false, s)

/-- `Parser::read_ipv6_addr`: up to 8 leading groups; if fewer than 8, a `::`
followed by trailing groups, the gap filled with zero groups. An embedded
IPv4 address may only end the address. -/
def readIpv6Addr (s : List Char) : Option (List Nat × List Char) :=
  let p := readGroups 8 0 s
  if p.1.length = 8 then some (p.1, p.2.2)
  else if p.2.1 then none
  else
    match readGivenChar ':' p.2.2 with
    | none => none
    | some (_, r2) =>
      match readGivenChar ':' r2 with
      | none => none
      | some (_, r3) =>
        let q := readGroups (8 - (p.1.length + 1)) 0 r3
        some (p.1 ++ List.replicate (8 - p.1.length - q.1.length) 0 ++ q.1, q.2.2)

/-- `Parser::read_ip_addr`: IPv4 first, otherwise IPv6. -/
def readIpAddr (s : List Char) : Option (IpAddrM × List Char) :=
  match readIpv4Addr s with
  | some (o, r) => some (IpAddrM.v4 o.1 o.2.1 o.2.2.1 o.2.2.2, r)
  | none =>
    match readIpv6Addr s with
    | some (gs, r) => some (IpAddrM.v6 gs, r)
    | none => none

/-- `IpAddr::from_str`: the parsed address, provided the whole string is
consumed. -/
def ipAddrFromStr (s : List Char) : Option IpAddrM :=
  match readIpAddr s with
  | some (ip, []) => some ip
  | _ => none

/-- `u8::from_str` (core's unsigned `from_str_radix` at radix 10): an
optional leading `+`, then a non-empty run of decimal digits spanning the
rest of the string, with value at most 255. -/
def u8FromStr (s : List Char) : Option Nat :=
  let digits := match s with
    | c :: rest => if c = '+' then rest else s
    | [] => s
  match readDigits 10 digits with
  | (ds, []) =>
    if ds.isEmpty then none
    else if 255 < digitsVal 10 ds then none
    else some (digitsVal 10 ds)
  | _ => none

/-- Rust's `str::split('/')`, as collected into a `Vec` by
`AllowedIP::from_str`. -/
def splitSlash : List Char → List (List Char)
  | [] => [[]]
  | c :: rest =>
    if c = '/' then [] :: splitSlash rest
    else
      match splitSlash rest with
      | [] => [[c]]
      | p :: ps => (c :: p) :: ps

/-- `impl FromStr for AllowedIP` (peer.rs), over the string's character
list: split on `/`; require exactly two pieces; parse the address as
`IpAddr` and the prefix as `u8`; accept when the prefix is within the family
bound (32 for v4, 128 for v6); every failure yields the single unstructured
error `"Invalid IP format"`. -/
def allowedIPFromStrL (l : List Char) : Except String AllowedIPM :=
  match splitSlash l with
  | [a, c] =>
    match ipAddrFromStr a, u8FromStr c with
    | some addr, some cidr =>
      match addr with
      | .v4 _ _ _ _ =>
        if cidr ≤ 32 then .ok ⟨addr, cidr⟩ else .error "Invalid IP format"
      | .v6 _ =>
        if cidr ≤ 128 then .ok ⟨addr, cidr⟩ else .error "Invalid IP format"
    | _, _ => .error "Invalid IP format"
  | _ => .error "Invalid IP format"

/-- `impl FromStr for AllowedIP` on a Rust string. -/
def allowedIPFromStr (s : String) : Except String AllowedIPM :=
  allowedIPFromStrL s.data

/-- Every failure of `AllowedIP::from_str` carries the same unstructured
message. -/
theorem allowedIPFromStrL_error_shape (l : List Char) (e : String)
    (h : allowedIPFromStrL l = .error e) : e = "Invalid IP format" := by
  unfold allowedIPFromStrL at h
  repeat' split at h
  all_goals simp_all

/-- C5: `AllowedIP::from_str` accepts exactly the strings that split on `/`
into an address accepted by `IpAddr::from_str` and a prefix accepted by
`u8::from_str` that is within the family's bit width (32 for v4, 128 for
v6); every rejection carries only the unstructured `"Invalid IP format"`;
and the claim's concrete vectors parse accordingly. -/
theorem allowedIP_from_str_exact (l : List Char) :
    ((∃ ip, allowedIPFromStrL l = .ok ip) ↔
      (∃ a c addr cidr, splitSlash l = [a, c] ∧
        ipAddrFromStr a = some addr ∧ u8FromStr c = some cidr ∧
        cidr ≤ addr.width)) ∧
    ((∀ ip, allowedIPFromStrL l ≠ .ok ip) →
      allowedIPFromStrL l = .error "Invalid IP format") ∧
    (allowedIPFromStr "10.0.0.0/24" = .ok ⟨IpAddrM.v4 10 0 0 0, 24⟩) ∧
    (allowedIPFromStr "::1/128" = .ok ⟨IpAddrM.v6 [0, 0, 0, 0, 0, 0, 0, 1], 128⟩) ∧
    (allowedIPFromStr "10.0.0.0/33" = .error "Invalid IP format") ∧
    (allowedIPFromStr "10.0.0.0" = .error "Invalid IP format") ∧
    (allowedIPFromStr "10.0.0.0/24/5" = .error "Invalid IP format") ∧
    (allowedIPFromStr "not-an-ip/24" = .error "Invalid IP format") := by
  refine ⟨⟨?_, ?_⟩, ?_, rfl, rfl, rfl, rfl, rfl, rfl⟩
  · rintro ⟨ip, hip⟩
    rcases hl : splitSlash l with _ | ⟨a, _ | ⟨c, _ | ⟨x, t⟩⟩⟩
    · simp [allowedIPFromStrL, hl] at hip
    · simp [allowedIPFromStrL, hl] at hip
    · cases hip4 : ipAddrFromStr a with
      | none => simp [allowedIPFromStrL, hl, hip4] at hip
      | some addr =>
        cases hu : u8FromStr c with
        | none => simp [allowedIPFromStrL, hl, hip4, hu] at hip
        | some cidr =>
          cases addr with
          | v4 o1 o2 o3 o4 =>
            by_cases hb : cidr ≤ 32
            · exact ⟨a, c, _, cidr, rfl, hip4, hu, by simpa [IpAddrM.width] using hb⟩
            · simp [allowedIPFromStrL, hl, hip4, hu, hb] at hip
          | v6 gs =>
            by_cases hb : cidr ≤ 128
            · exact ⟨a, c, _, cidr, rfl, hip4, hu, by simpa [IpAddrM.width] using hb⟩
            · simp [allowedIPFromStrL, hl, hip4, hu, hb] at hip
    · simp [allowedIPFromStrL, hl] at hip
  · rintro ⟨a, c, addr, cidr, hl, hip4, hu, hb⟩
    cases addr with
    | v4 o1 o2 o3 o4 =>
      rw [IpAddrM.width] at hb
      exact ⟨⟨IpAddrM.v4 o1 o2 o3 o4, cidr⟩, by simp [allowedIPFromStrL, hl, hip4, hu, hb]⟩
    | v6 gs =>
      rw [IpAddrM.width] at hb
      exact ⟨⟨IpAddrM.v6 gs, cidr⟩, by simp [allowedIPFromStrL, hl, hip4, hu, hb]⟩
  · intro h
    cases hres : allowedIPFromStrL l with
    | ok ip => exact absurd hres (h ip)
    | error e =>
      have he := allowedIPFromStrL_error_shape l e hres
      rw [he]

/-- Closed instance of the C5 theorem: from the parse of `"10.0.0.0/24"` the
characterization produces the split pieces, parsed address and in-range
prefix. -/
theorem allowedIP_from_str_exact_witness :
    ∃ a c addr cidr, splitSlash (String.data "10.0.0.0/24") = [a, c] ∧
      ipAddrFromStr a = some addr ∧ u8FromStr c = some cidr ∧
      cidr ≤ addr.width :=
  (allowedIP_from_str_exact (String.data "10.0.0.0/24")).1.mp
    ⟨⟨IpAddrM.v4 10 0 0 0, 24⟩, rfl⟩

/-! ## Canonical textual rendering of addresses

Modelled from the spec: the round-trip property renders an `AllowedIP` back
as "address + `/` + prefix" (spec §8); the address rendering is the Rust
standard library's canonical `Display` form for `Ipv4Addr`/`Ipv6Addr`, which
the repository relies on but whose body is not under `src/`. -/

/-- The decimal digit character for `d < 10`. -/
def decDigitChar (d : Nat) : Char := Char.ofNat (48 + d)

/-- The lowercase hex digit character for `d < 16`, as produced by the
`{:x}` formatting of the IPv6 groups. -/
def hexDigitChar (d : Nat) : Char :=
  if d < 10 then Char.ofNat (48 + d) else Char.ofNat (87 + d)

/-- Decimal rendering of an unsigned integer, as Rust's `{}`: no sign, no
leading zeros, `0` for zero. -/
def decRepr (n : Nat) : List Char :=
  if n = 0 then ['0'] else (Nat.digits 10 n).reverse.map decDigitChar

/-- Lowercase hex rendering of an unsigned integer, as Rust's `{:x}`. -/
def hexRepr (n : Nat) : List Char :=
  if n = 0 then ['0'] else (Nat.digits 16 n).reverse.map hexDigitChar

/-- `Display for Ipv4Addr`: the four octets in decimal, separated by `.`. -/
def renderIpv4 (a b c d : Nat) : List Char :=
  decRepr a ++ '.' :: decRepr b ++ '.' :: decRepr c ++ '.' :: decRepr d

/-- Pieces joined with `:` (the `fmt_subslice` helper of
`Display for Ipv6Addr`). -/
def joinColon : List (List Char) → List Char
  | [] => []
  | [p] => p
  | p :: q :: ps => p ++ ':' :: joinColon (q :: ps)

/-- The zero-run scan of `Display for Ipv6Addr`: the fold tracking the
current run of zero groups and the longest (leftmost on ties) seen so far,
each as (start, length). -/
def zeroRunAux : List Nat → Nat → Nat × Nat → Nat × Nat → Nat × Nat
  | [], _, _, longest => longest
  | g :: rest, i, current, longest =>
    if g = 0 then
      let cs := if current.2 = 0 then i else current.1
      let cl := current.2 + 1
      zeroRunAux rest (i + 1) (cs, cl)
        (if longest.2 < cl then (cs, cl) else longest)
    else
      zeroRunAux rest (i + 1) (0, 0) longest

/-- The longest (leftmost on ties) run of zero groups of an IPv6 segment
list, as (start, length). -/
def zeroRun (gs : List Nat) : Nat × Nat := zeroRunAux gs 0 (0, 0) (0, 0)

/-- `Display for Ipv6Addr` (canonical form): an IPv4-mapped address prints
as `::ffff:a.b.c.d`; any other address prints its groups in lowercase hex
separated by `:`, with the longest (leftmost on tie) run of at least two
zero groups compressed to `::`. (The all-zero and loopback special cases of
the Rust code produce the same strings as the zero-run branch.) -/
def renderIpv6 (gs : List Nat) : List Char :=
  match gs with
  | [0, 0, 0, 0, 0, 65535, g, h] =>
    ':' :: ':' :: 'f' :: 'f' :: 'f' :: 'f' :: ':' ::
      renderIpv4 (g / 256) (g % 256) (h / 256) (h % 256)
  | _ =>
    if 1 < (zeroRun gs).2 then
      joinColon ((gs.take (zeroRun gs).1).map hexRepr) ++ ':' :: ':' ::
        joinColon ((gs.drop ((zeroRun gs).1 + (zeroRun gs).2)).map hexRepr)
    else
      joinColon (gs.map hexRepr)

/-- `Display for IpAddr`: dispatch on the family. -/
def renderIp : IpAddrM → List Char
  | .v4 a b c d => renderIpv4 a b c d
  | .v6 gs => renderIpv6 gs

/-- Modelled from the spec: rendering an `AllowedIP` as
"address + `/` + prefix" (spec §8; no renderer is under `src/`). -/
def renderAllowedIP (ip : AllowedIPM) : List Char :=
  renderIp ip.addr ++ '/' :: decRepr ip.cidr

/-- A well-formed address value: octets below 256, or exactly eight groups
below 65536. -/
def ValidIp : IpAddrM → Prop
  | .v4 a b c d => a < 256 ∧ b < 256 ∧ c < 256 ∧ d < 256
  | .v6 gs => gs.length = 8 ∧ ∀ g ∈ gs, g < 65536

/-- A well-formed `AllowedIP` value: a valid address and a prefix within the
family's bit width. -/
def ValidAllowedIP (ip : AllowedIPM) : Prop :=
  ValidIp ip.addr ∧ ip.cidr ≤ ip.addr.width

/-! ### Digit-level facts -/

/-- The digit list (most significant first) whose characters `decRepr`
prints. -/
def decDigits (n : Nat) : List Nat :=
  if n = 0 then [0] else (Nat.digits 10 n).reverse

/-- The digit list (most significant first) whose characters `hexRepr`
prints. -/
def hexDigits (n : Nat) : List Nat :=
  if n = 0 then [0] else (Nat.digits 16 n).reverse

theorem decRepr_eq (n : Nat) : decRepr n = (decDigits n).map decDigitChar := by
  rw [decRepr, decDigits]
  split <;> rfl

theorem hexRepr_eq (n : Nat) : hexRepr n = (hexDigits n).map hexDigitChar := by
  rw [hexRepr, hexDigits]
  split <;> rfl

theorem toDigit_decDigitChar (d : Nat) (h : d < 10) :
    toDigit (decDigitChar d) 10 = some d := by
  interval_cases d <;> decide

theorem toDigit_hexDigitChar (d : Nat) (h : d < 16) :
    toDigit (hexDigitChar d) 16 = some d := by
  interval_cases d <;> decide

theorem toDigit_colon (r : Nat) : toDigit ':' r = none := rfl

theorem toDigit_dot (r : Nat) : toDigit '.' r = none := rfl

theorem toDigit_slash (r : Nat) : toDigit '/' r = none := rfl

theorem decDigitChar_notSpecial (d : Nat) (h : d < 10) :
    decDigitChar d ≠ '.' ∧ decDigitChar d ≠ '/' ∧ decDigitChar d ≠ ':' ∧
    decDigitChar d ≠ '+' := by
  interval_cases d <;> decide

theorem hexDigitChar_notSpecial (d : Nat) (h : d < 16) :
    hexDigitChar d ≠ '.' ∧ hexDigitChar d ≠ '/' ∧ hexDigitChar d ≠ ':' ∧
    hexDigitChar d ≠ '+' := by
  interval_cases d <;> decide

theorem decDigits_ne_nil (n : Nat) : decDigits n ≠ [] := by
  rw [decDigits]
  split
  · simp
  · simpa using Nat.digits_ne_nil_iff_ne_zero.mpr (by assumption)

theorem hexDigits_ne_nil (n : Nat) : hexDigits n ≠ [] := by
  rw [hexDigits]
  split
  · simp
  · simpa using Nat.digits_ne_nil_iff_ne_zero.mpr (by assumption)

theorem decDigits_lt (n : Nat) : ∀ d ∈ decDigits n, d < 10 := by
  intro d hd
  rw [decDigits] at hd
  split at hd
  · simp at hd; omega
  · exact Nat.digits_lt_base (by norm_num) (List.mem_reverse.1 hd)

theorem hexDigits_lt (n : Nat) : ∀ d ∈ hexDigits n, d < 16 := by
  intro d hd
  rw [hexDigits] at hd
  split at hd
  · simp at hd; omega
  · exact Nat.digits_lt_base (by norm_num) (List.mem_reverse.1 hd)

theorem digitsVal_reverse_ofDigits (b : Nat) (L : List Nat) :
    digitsVal b L.reverse = Nat.ofDigits b L := by
  induction L with
  | nil => rfl
  | cons d L ih =>
    rw [List.reverse_cons, digitsVal, List.foldl_append]
    rw [digitsVal] at ih
    rw [ih, Nat.ofDigits_cons]
    simp only [List.foldl_cons, List.foldl_nil]
    ring

theorem digitsVal_decDigits (n : Nat) : digitsVal 10 (decDigits n) = n := by
  rw [decDigits]
  split
  · simp [digitsVal]; omega
  · rw [digitsVal_reverse_ofDigits, Nat.ofDigits_digits]

theorem digitsVal_hexDigits (n : Nat) : digitsVal 16 (hexDigits n) = n := by
  rw [hexDigits]
  split
  · simp [digitsVal]; omega
  · rw [digitsVal_reverse_ofDigits, Nat.ofDigits_digits]

/-- The base-`b` digit count of `n < b ^ k` is at most `k`. -/
theorem digits_len_le_of_lt_pow {b n k : Nat} (hb : 1 < b) (h : n < b ^ k) :
    (Nat.digits b n).length ≤ k := by
  by_cases hn : n = 0
  · subst hn; simp
  · by_contra hlen
    push_neg at hlen
    have h1 : b ^ (Nat.digits b n).length ≤ b * n :=
      Nat.base_pow_length_digits_le b n hb hn
    have h2 : b ^ (k + 1) ≤ b ^ (Nat.digits b n).length :=
      Nat.pow_le_pow_right (by omega) (by omega)
    have h3 : b * n < b * b ^ k :=
      mul_lt_mul_of_pos_left h (by omega)
    rw [pow_succ, Nat.mul_comm] at h2
    omega

theorem decDigits_len_le (n : Nat) (h : n ≤ 255) : (decDigits n).length ≤ 3 := by
  rw [decDigits]
  split
  · simp
  · simpa using digits_len_le_of_lt_pow (b := 10) (k := 3) (by norm_num) (by omega)

theorem hexDigits_len_le (n : Nat) (h : n < 65536) : (hexDigits n).length ≤ 4 := by
  rw [hexDigits]
  split
  · simp
  · simpa using digits_len_le_of_lt_pow (b := 16) (k := 4) (by norm_num) (by omega)

/-- `decRepr` has no leading zero except for the single digit of zero
itself. -/
theorem decDigits_head_zero (n : Nat) (h : (decDigits n).head? = some 0) :
    decDigits n = [0] := by
  by_cases hn : n = 0
  · rw [decDigits, if_pos hn]
  · exfalso
    rw [decDigits, if_neg hn, List.head?_reverse] at h
    have hne : Nat.digits 10 n ≠ [] := Nat.digits_ne_nil_iff_ne_zero.mpr hn
    have hlast := Nat.getLast_digit_ne_zero 10 hn
    rw [List.getLast?_eq_getLast _ hne] at h
    simp at h
    exact absurd h hlast

/-! ### Reading back printed digit runs -/

theorem readDigits_append (radix : Nat) (chr : Nat → Char) (ds : List Nat)
    (rest : List Char)
    (hds : ∀ d ∈ ds, toDigit (chr d) radix = some d)
    (hrest : ∀ c, rest.head? = some c → toDigit c radix = none) :
    readDigits radix (ds.map chr ++ rest) = (ds, rest) := by
  induction ds with
  | nil =>
    cases rest with
    | nil => rfl
    | cons c rest2 =>
      simp only [List.map_nil, List.nil_append, readDigits, hrest c rfl]
  | cons d ds ih =>
    have hd := hds d (List.mem_cons_self d ds)
    simp only [List.map_cons, List.cons_append, readDigits, hd, List.append_eq]
    rw [ih (fun d2 hd2 => hds d2 (List.mem_cons_of_mem d hd2))]

theorem readDigits_isSuffix (radix : Nat) (s : List Char) :
    (readDigits radix s).2.IsSuffix s := by
  induction s with
  | nil => exact List.suffix_refl []
  | cons c rest ih =>
    rw [readDigits]
    cases ht : toDigit c radix with
    | some d => simpa using ih.trans (List.suffix_cons c rest)
    | none => exact List.suffix_refl _

theorem readDigits_rest_mem (radix : Nat) (s : List Char) (c : Char)
    (h : (readDigits radix s).2.head? = some c) : c ∈ s := by
  have hs := readDigits_isSuffix radix s
  apply hs.subset
  cases he : (readDigits radix s).2 with
  | nil => rw [he] at h; cases h
  | cons a t =>
    rw [he] at h
    simp at h
    rw [← h]
    exact List.mem_cons_self a t

theorem readNumber_decRepr (n : Nat) (rest : List Char) (hn : n ≤ 255)
    (hrest : ∀ c, rest.head? = some c → toDigit c 10 = none) :
    readNumber 10 3 255 false (decRepr n ++ rest) = some (n, rest) := by
  have hmap : ∀ d ∈ decDigits n, toDigit (decDigitChar d) 10 = some d :=
    fun d hd => toDigit_decDigitChar d (decDigits_lt n d hd)
  have hread := readDigits_append 10 decDigitChar (decDigits n) rest hmap hrest
  have h1 : (decDigits n).isEmpty = false := by
    cases hd : decDigits n with
    | nil => exact absurd hd (decDigits_ne_nil n)
    | cons a t => rfl
  have h2 : ¬ 3 < (decDigits n).length := by
    have := decDigits_len_le n hn
    omega
  have h3 : ¬ 255 < digitsVal 10 (decDigits n) := by
    rw [digitsVal_decDigits]
    omega
  have h4 : (decide ((decDigits n).head? = some 0) &&
      decide (1 < (decDigits n).length)) = false := by
    by_cases hz : (decDigits n).head? = some 0
    · rw [decDigits_head_zero n hz]
      simp
    · simp [hz]
  rw [readNumber, decRepr_eq, hread]
  simp only [h1, Bool.false_eq_true, if_false, h2, h3, Bool.not_false,
    Bool.true_and, h4, digitsVal_decDigits]
  rw [if_neg (show ¬ 255 < n by omega)]

theorem readNumber_hexRepr (g : Nat) (rest : List Char) (hg : g < 65536)
    (hrest : ∀ c, rest.head? = some c → toDigit c 16 = none) :
    readNumber 16 4 65535 true (hexRepr g ++ rest) = some (g, rest) := by
  have hmap : ∀ d ∈ hexDigits g, toDigit (hexDigitChar d) 16 = some d :=
    fun d hd => toDigit_hexDigitChar d (hexDigits_lt g d hd)
  have hread := readDigits_append 16 hexDigitChar (hexDigits g) rest hmap hrest
  have h1 : (hexDigits g).isEmpty = false := by
    cases hd : hexDigits g with
    | nil => exact absurd hd (hexDigits_ne_nil g)
    | cons a t => rfl
  have h2 : ¬ 4 < (hexDigits g).length := by
    have := hexDigits_len_le g hg
    omega
  have h3 : ¬ 65535 < digitsVal 16 (hexDigits g) := by
    rw [digitsVal_hexDigits]
    omega
  rw [readNumber, hexRepr_eq, hread]
  simp only [h1, Bool.false_eq_true, if_false, h2, h3, Bool.not_true,
    Bool.false_and, digitsVal_hexDigits]
  rw [if_neg (show ¬ 65535 < g by omega)]

/-! ### Character classes of rendered addresses -/

theorem mem_decRepr (c : Char) (n : Nat) (h : c ∈ decRepr n) :
    ∃ d, d < 10 ∧ c = decDigitChar d := by
  rw [decRepr_eq] at h
  rcases List.mem_map.1 h with ⟨d, hd, he⟩
  exact ⟨d, decDigits_lt n d hd, he.symm⟩

theorem mem_hexRepr (c : Char) (n : Nat) (h : c ∈ hexRepr n) :
    ∃ d, d < 16 ∧ c = hexDigitChar d := by
  rw [hexRepr_eq] at h
  rcases List.mem_map.1 h with ⟨d, hd, he⟩
  exact ⟨d, hexDigits_lt n d hd, he.symm⟩

theorem mem_joinColon (c : Char) (ps : List (List Char)) (h : c ∈ joinColon ps) :
    c = ':' ∨ ∃ p ∈ ps, c ∈ p := by
  induction ps with
  | nil => cases h
  | cons p ps ih =>
    cases ps with
    | nil =>
      right
      exact ⟨p, List.mem_cons_self p [], by simpa [joinColon] using h⟩
    | cons q ps2 =>
      rw [joinColon] at h
      rcases List.mem_append.1 h with hp | hq
      · exact Or.inr ⟨p, List.mem_cons_self p _, hp⟩
      · rcases List.mem_cons.1 hq with rfl | hj
        · exact Or.inl rfl
        · rcases ih hj with hco | ⟨p2, hp2, hc2⟩
          · exact Or.inl hco
          · exact Or.inr ⟨p2, List.mem_cons_of_mem p hp2, hc2⟩

theorem mem_joinColon_hex (c : Char) (gs : List Nat)
    (h : c ∈ joinColon (gs.map hexRepr)) :
    c = ':' ∨ ∃ d, d < 16 ∧ c = hexDigitChar d := by
  rcases mem_joinColon c _ h with hc | ⟨p, hp, hcp⟩
  · exact Or.inl hc
  · rcases List.mem_map.1 hp with ⟨g, _, hg⟩
    exact Or.inr (mem_hexRepr c g (hg ▸ hcp))

theorem dot_not_mem_joinColon_hex (gs : List Nat) :
    '.' ∉ joinColon (gs.map hexRepr) := by
  intro h
  rcases mem_joinColon_hex '.' gs h with hc | ⟨d, hd, he⟩
  · cases hc
  · exact (hexDigitChar_notSpecial d hd).1 he.symm

theorem slash_not_mem_joinColon_hex (gs : List Nat) :
    '/' ∉ joinColon (gs.map hexRepr) := by
  intro h
  rcases mem_joinColon_hex '/' gs h with hc | ⟨d, hd, he⟩
  · cases hc
  · exact (hexDigitChar_notSpecial d hd).2.1 he.symm

theorem mem_renderIpv4 (ch : Char) (a b c d : Nat)
    (h : ch ∈ renderIpv4 a b c d) :
    ch = '.' ∨ ch ∈ decRepr a ∨ ch ∈ decRepr b ∨ ch ∈ decRepr c ∨
      ch ∈ decRepr d := by
  rw [renderIpv4] at h
  simp only [List.mem_append, List.mem_cons] at h
  tauto

theorem slash_not_mem_renderIpv4 (a b c d : Nat) :
    '/' ∉ renderIpv4 a b c d := by
  intro h
  have hno : ∀ n : Nat, '/' ∉ decRepr n := by
    intro n hn
    rcases mem_decRepr '/' n hn with ⟨e, he, hee⟩
    exact (decDigitChar_notSpecial e he).2.1 hee.symm
  rcases mem_renderIpv4 '/' a b c d h with hc | hm | hm | hm | hm
  · cases hc
  · exact hno a hm
  · exact hno b hm
  · exact hno c hm
  · exact hno d hm

/-! ### Reading back a rendered IPv4 address -/

theorem hrest_cons (c1 : Char) (l : List Char) (radix : Nat)
    (h1 : toDigit c1 radix = none) :
    ∀ c0, ((c1 :: l).head? = some c0) → toDigit c0 radix = none := by
  intro c0 h0
  simp at h0
  rw [← h0]
  exact h1

theorem hrest_nil (radix : Nat) :
    ∀ c0, (([] : List Char).head? = some c0) → toDigit c0 radix = none := by
  intro c0 h0
  cases h0

theorem readNumber_rest (radix maxD maxV : Nat) (az : Bool) (s : List Char)
    (v : Nat) (r : List Char)
    (h : readNumber radix maxD maxV az s = some (v, r)) :
    r = (readDigits radix s).2 := by
  rw [readNumber] at h
  repeat' split at h
  all_goals cases h
  all_goals rfl

theorem readIpv4Addr_none (s : List Char)
    (h : ∀ c, (readDigits 10 s).2.head? = some c → c ≠ '.') :
    readIpv4Addr s = none := by
  cases hn : readNumber 10 3 255 false s with
  | none => simp [readIpv4Addr, readSeparator, hn]
  | some pr =>
    have hr : pr.2 = (readDigits 10 s).2 :=
      readNumber_rest 10 3 255 false s pr.1 pr.2 (by rw [hn])
    have hhead : readGivenChar '.' pr.2 = none := by
      cases hcr : pr.2 with
      | nil => rfl
      | cons c0 t =>
        have hc0 : c0 ≠ '.' := by
          apply h
          rw [← hr, hcr]
          rfl
        simp [readGivenChar, hc0]
    simp [readIpv4Addr, readSeparator, hn, hhead]

theorem readIpv4Addr_no_dot (s : List Char) (h : '.' ∉ s) :
    readIpv4Addr s = none :=
  readIpv4Addr_none s
    (fun c hc heq => h (heq ▸ readDigits_rest_mem 10 s c hc))

theorem readIpv4Addr_render (a b c d : Nat) (rest : List Char)
    (ha : a < 256) (hb : b < 256) (hc : c < 256) (hd : d < 256)
    (hrest : ∀ c0, rest.head? = some c0 → toDigit c0 10 = none) :
    readIpv4Addr (renderIpv4 a b c d ++ rest) = some ((a, b, c, d), rest) := by
  have hi : renderIpv4 a b c d ++ rest =
      decRepr a ++ ('.' :: (decRepr b ++ ('.' :: (decRepr c ++
        ('.' :: (decRepr d ++ rest)))))) := by
    simp [renderIpv4]
  have e1 := readNumber_decRepr a
    ('.' :: (decRepr b ++ ('.' :: (decRepr c ++ ('.' :: (decRepr d ++ rest))))))
    (by omega) (hrest_cons '.' _ 10 (toDigit_dot 10))
  have e2 := readNumber_decRepr b
    ('.' :: (decRepr c ++ ('.' :: (decRepr d ++ rest))))
    (by omega) (hrest_cons '.' _ 10 (toDigit_dot 10))
  have e3 := readNumber_decRepr c ('.' :: (decRepr d ++ rest))
    (by omega) (hrest_cons '.' _ 10 (toDigit_dot 10))
  have e4 := readNumber_decRepr d rest (by omega) hrest
  rw [readIpv4Addr, hi]
  simp [readSeparator, readGivenChar, e1, e2, e3, e4]

/-! ### Reading back rendered IPv6 group sequences -/

theorem readNumber_nil (radix maxD maxV : Nat) (az : Bool) :
    readNumber radix maxD maxV az [] = none := by
  simp [readNumber, readDigits]

theorem readNumber_colon_head (radix maxD maxV : Nat) (az : Bool)
    (l : List Char) :
    readNumber radix maxD maxV az (':' :: l) = none := by
  simp [readNumber, readDigits, toDigit_colon]

theorem readIpv4Addr_nil : readIpv4Addr [] = none := by
  simp [readIpv4Addr, readSeparator, readNumber_nil]

theorem readIpv4Addr_colon (l : List Char) : readIpv4Addr (':' :: l) = none := by
  simp [readIpv4Addr, readSeparator, readNumber_colon_head]

/-- At the stopping boundary (end of input or a `::`), a separator-guarded
item read fails. -/
theorem readSeparator_stop (i : Nat)
    (inner : List Char → Option (α × List Char))
    (hnil : inner [] = none) (hcolon : ∀ l, inner (':' :: l) = none)
    (rest : List Char)
    (hr : rest = [] ∨ ∃ r2, rest = ':' :: ':' :: r2) :
    readSeparator ':' i inner rest = none := by
  rcases hr with rfl | ⟨r2, rfl⟩
  · rw [readSeparator]
    split
    · exact hnil
    · rfl
  · rw [readSeparator]
    split
    · exact hcolon _
    · simp [readGivenChar, hcolon]

/-- At the stopping boundary, `read_groups` reads no group. -/
theorem readGroups_stop (rem i : Nat) (rest : List Char)
    (hr : rest = [] ∨ ∃ r2, rest = ':' :: ':' :: r2) :
    readGroups rem i rest = ([], false, rest) := by
  cases rem with
  | zero => rfl
  | succ rem2 =>
    rw [readGroups]
    have hipv4 : (if 1 ≤ rem2 then readSeparator ':' i readIpv4Addr rest
        else none) = none := by
      split
      · exact readSeparator_stop i _ readIpv4Addr_nil readIpv4Addr_colon rest hr
      · rfl
    have hhex : readSeparator ':' i (readNumber 16 4 65535 true) rest = none :=
      readSeparator_stop i _ (readNumber_nil 16 4 65535 true)
        (fun l => readNumber_colon_head 16 4 65535 true l) rest hr
    rw [hipv4, hhex]

theorem hstop_hrest (radix : Nat) (rest : List Char)
    (hr : rest = [] ∨ ∃ r2, rest = ':' :: ':' :: r2) :
    ∀ c0, rest.head? = some c0 → toDigit c0 radix = none := by
  rcases hr with rfl | ⟨r2, rfl⟩
  · exact hrest_nil radix
  · exact hrest_cons ':' _ radix (toDigit_colon radix)

theorem readSeparator_zero (inner : List Char → Option (α × List Char))
    (l : List Char) : readSeparator ':' 0 inner l = inner l := by
  rw [readSeparator, if_pos rfl]

theorem readSeparator_colon_cons (i : Nat) (hi : i ≠ 0)
    (inner : List Char → Option (α × List Char)) (l : List Char) :
    readSeparator ':' i inner (':' :: l) = inner l := by
  rw [readSeparator, if_neg hi]
  simp [readGivenChar]

/-- Reading a rendered sequence of hex groups consumes exactly those groups
and stops at the boundary. -/
theorem readGroups_join (gs : List Nat) :
    ∀ (rem i : Nat) (rest : List Char),
      (∀ g ∈ gs, g < 65536) →
      gs.length ≤ rem →
      (rest = [] ∨ ∃ r2, rest = ':' :: ':' :: r2) →
      '.' ∉ rest →
      readGroups rem i
        ((if i = 0 ∨ gs = [] then [] else [':']) ++
          joinColon (gs.map hexRepr) ++ rest)
        = (gs, false, rest) := by
  induction gs with
  | nil =>
    intro rem i rest _ _ hr _
    simpa [joinColon] using readGroups_stop rem i rest hr
  | cons g gs2 ih =>
    intro rem i rest hlt hlen hr hdot
    cases rem with
    | zero => simp at hlen
    | succ rem2 =>
      have hg : g < 65536 := hlt g (List.mem_cons_self g gs2)
      have hlt2 : ∀ g2 ∈ gs2, g2 < 65536 :=
        fun g2 h2 => hlt g2 (List.mem_cons_of_mem g h2)
      -- the input with the hex groups unfolded one step
      have hjoin : joinColon ((g :: gs2).map hexRepr) =
          hexRepr g ++ ((if gs2 = [] then [] else [':']) ++
            joinColon (gs2.map hexRepr)) := by
        cases gs2 with
        | nil => simp [joinColon]
        | cons q qs => simp [joinColon]
      -- the remainder after reading group `g`
      set tailrest := (if gs2 = [] then ([] : List Char) else [':']) ++
        joinColon (gs2.map hexRepr) ++ rest with htail
      have hdot_all : '.' ∉ joinColon ((g :: gs2).map hexRepr) ++ rest := by
        intro hmem
        rcases List.mem_append.1 hmem with hmj | hmr
        · exact dot_not_mem_joinColon_hex _ hmj
        · exact hdot hmr
      have htailrest_head : ∀ c0, tailrest.head? = some c0 →
          toDigit c0 16 = none := by
        rw [htail]
        cases hgs2 : gs2 with
        | nil =>
          simpa [joinColon] using hstop_hrest 16 rest hr
        | cons q qs =>
          exact fun c0 h0 => hrest_cons ':' _ 16 (toDigit_colon 16) c0 h0
      have hnum : readNumber 16 4 65535 true
          (hexRepr g ++ tailrest) = some (g, tailrest) :=
        readNumber_hexRepr g tailrest hg htailrest_head
      have hhex : readSeparator ':' i (readNumber 16 4 65535 true)
          ((if i = 0 ∨ g :: gs2 = [] then [] else [':']) ++
            joinColon ((g :: gs2).map hexRepr) ++ rest) = some (g, tailrest) := by
        by_cases hi : i = 0
        · rw [show (if i = 0 ∨ g :: gs2 = [] then ([] : List Char) else [':'])
              = [] by simp [hi]]
          rw [List.nil_append, hi, readSeparator_zero, hjoin,
            List.append_assoc, ← htail]
          exact hnum
        · rw [show (if i = 0 ∨ g :: gs2 = [] then ([] : List Char) else [':'])
              = [':'] by simp [hi]]
          rw [List.singleton_append, List.cons_append,
            readSeparator_colon_cons i hi, hjoin, List.append_assoc, ← htail]
          exact hnum
      have hipv4 : (if 1 ≤ rem2 then readSeparator ':' i readIpv4Addr
          ((if i = 0 ∨ g :: gs2 = [] then [] else [':']) ++
            joinColon ((g :: gs2).map hexRepr) ++ rest) else none) = none := by
        split
        · by_cases hi : i = 0
          · rw [show (if i = 0 ∨ g :: gs2 = [] then ([] : List Char) else [':'])
                = [] by simp [hi]]
            rw [List.nil_append, hi, readSeparator_zero]
            exact readIpv4Addr_no_dot _ hdot_all
          · rw [show (if i = 0 ∨ g :: gs2 = [] then ([] : List Char) else [':'])
                = [':'] by simp [hi]]
            rw [List.singleton_append, List.cons_append,
              readSeparator_colon_cons i hi]
            exact readIpv4Addr_no_dot _ hdot_all
        · rfl
      have hrec : readGroups rem2 (i + 1) tailrest = (gs2, false, rest) := by
        have := ih rem2 (i + 1) rest hlt2 (by simpa using hlen) hr hdot
        simpa [htail, show ¬ (i + 1 = 0) by omega] using this
      rw [readGroups]
      simp only [hipv4, hhex, hrec]

/-! ### The zero-run compression window is a run of zeros -/

theorem zeroRunAux_spec (gs : List Nat) :
    ∀ (l : List Nat) (i : Nat) (cur long : Nat × Nat),
      l = gs.drop i →
      i ≤ gs.length →
      (cur.2 = 0 ∨ cur.1 + cur.2 = i) →
      (∀ j, j < cur.2 → gs.getD (cur.1 + j) 1 = 0) →
      long.1 + long.2 ≤ gs.length →
      (∀ j, j < long.2 → gs.getD (long.1 + j) 1 = 0) →
      (zeroRunAux l i cur long).1 + (zeroRunAux l i cur long).2 ≤ gs.length ∧
      ∀ j, j < (zeroRunAux l i cur long).2 →
        gs.getD ((zeroRunAux l i cur long).1 + j) 1 = 0 := by
  intro l
  induction l with
  | nil =>
    intro i cur long _ _ _ _ h5 h6
    exact ⟨h5, h6⟩
  | cons g rest ih =>
    intro i cur long hdrop hi hcur hcurz hlong hlongz
    have hlen : i < gs.length := by
      by_contra hge
      push_neg at hge
      rw [List.drop_eq_nil_of_le hge] at hdrop
      cases hdrop
    have hgi : gs.getD i 1 = g := by
      have h1 : gs[i]? = some g := by
        rw [← List.head?_drop, ← hdrop]
        rfl
      rw [List.getD_eq_getElem?_getD, h1]
      rfl
    have hrest : rest = gs.drop (i + 1) := by
      have : gs.drop (i + 1) = (gs.drop i).drop 1 := by
        rw [List.drop_drop]
      rw [this, ← hdrop]
      rfl
    rw [zeroRunAux]
    by_cases hg : g = 0
    · simp only [hg, if_pos rfl]
      set cs := if cur.2 = 0 then i else cur.1 with hcs
      have hnewrun : cs + (cur.2 + 1) = i + 1 ∧
          ∀ j, j < cur.2 + 1 → gs.getD (cs + j) 1 = 0 := by
        rcases hcur with hz | hsum
        · constructor
          · rw [hcs, if_pos hz, hz]
          · intro j hj
            have hj0 : j = 0 := by omega
            rw [hcs, if_pos hz, hj0, Nat.add_zero, hgi, hg]
        · by_cases hz : cur.2 = 0
          · constructor
            · rw [hcs, if_pos hz, hz]
            · intro j hj
              have hj0 : j = 0 := by omega
              rw [hcs, if_pos hz, hj0, Nat.add_zero, hgi, hg]
          · constructor
            · rw [hcs, if_neg hz]
              omega
            · intro j hj
              rw [hcs, if_neg hz]
              by_cases hjc : j < cur.2
              · exact hcurz j hjc
              · have hje : j = cur.2 := by omega
                rw [hje, hsum, hgi, hg]
      apply ih (i + 1) (cs, cur.2 + 1) _ hrest (by omega)
      · exact Or.inr hnewrun.1
      · exact hnewrun.2
      · split
        · simpa using (by omega : cs + (cur.2 + 1) ≤ gs.length)
        · exact hlong
      · split
        · exact hnewrun.2
        · exact hlongz
    · simp only [hg, if_neg hg]
      apply ih (i + 1) (0, 0) long hrest (by omega) (Or.inl rfl)
        (by intro j hj; omega) hlong hlongz

theorem zeroRun_spec (gs : List Nat) :
    (zeroRun gs).1 + (zeroRun gs).2 ≤ gs.length ∧
    ∀ j, j < (zeroRun gs).2 → gs.getD ((zeroRun gs).1 + j) 1 = 0 := by
  apply zeroRunAux_spec gs gs 0 (0, 0) (0, 0) (by simp) (by simp)
    (Or.inl rfl) (by intro j hj; omega) (by simp) (by intro j hj; omega)

/-- The list is its prefix, the zero window, and its suffix. -/
theorem take_replicate_drop (gs : List Nat) (ls ll : Nat)
    (h1 : ls + ll ≤ gs.length)
    (h0 : ∀ j, j < ll → gs.getD (ls + j) 1 = 0) :
    gs = gs.take ls ++ (List.replicate ll 0 ++ gs.drop (ls + ll)) := by
  have hmid : (gs.drop ls).take ll = List.replicate ll 0 := by
    apply List.eq_replicate_iff.mpr
    constructor
    · rw [List.length_take, List.length_drop]
      omega
    · intro b hb
      rcases List.mem_iff_getElem.1 hb with ⟨j, hj, he⟩
      have hjl : j < ll := by
        simp [List.length_take, List.length_drop] at hj
        omega
      have hjlen : ls + j < gs.length := by omega
      rw [List.getElem_take, List.getElem_drop] at he
      have hd := h0 j hjl
      rw [List.getD_eq_getElem gs 1 hjlen] at hd
      rw [← he]
      exact hd
  conv_lhs => rw [← List.take_append_drop ls gs]
  congr 1
  conv_lhs => rw [← List.take_append_drop ll (gs.drop ls)]
  rw [List.drop_drop, hmid]

/-! ### Reading back a rendered IPv6 address -/

theorem renderIpv6_not_mapped (gs : List Nat)
    (h : ∀ g h2, gs ≠ [0, 0, 0, 0, 0, 65535, g, h2]) :
    renderIpv6 gs =
      if 1 < (zeroRun gs).2 then
        joinColon ((gs.take (zeroRun gs).1).map hexRepr) ++ ':' :: ':' ::
          joinColon ((gs.drop ((zeroRun gs).1 + (zeroRun gs).2)).map hexRepr)
      else
        joinColon (gs.map hexRepr) := by
  rw [renderIpv6.eq_def]
  split
  · rename_i g h2
    exact absurd rfl (h g h2)
  · rfl

theorem readIpv6Addr_uncompressed (gs : List Nat) (hlen : gs.length = 8)
    (hlt : ∀ g ∈ gs, g < 65536) (hz : ¬ 1 < (zeroRun gs).2)
    (hnm : ∀ g h2, gs ≠ [0, 0, 0, 0, 0, 65535, g, h2]) :
    readIpv6Addr (renderIpv6 gs) = some (gs, []) := by
  rw [renderIpv6_not_mapped gs hnm, if_neg hz]
  have hread : readGroups 8 0 (joinColon (gs.map hexRepr)) = (gs, false, []) := by
    have := readGroups_join gs 8 0 [] hlt (by omega) (Or.inl rfl) (by simp)
    simpa using this
  simp [readIpv6Addr, hread, hlen]

theorem readIpv6Addr_compressed (gs : List Nat) (hlen : gs.length = 8)
    (hlt : ∀ g ∈ gs, g < 65536) (hz : 1 < (zeroRun gs).2)
    (hnm : ∀ g h2, gs ≠ [0, 0, 0, 0, 0, 65535, g, h2]) :
    readIpv6Addr (renderIpv6 gs) = some (gs, []) := by
  obtain ⟨hb, hzero⟩ := zeroRun_spec gs
  rw [hlen] at hb
  rw [renderIpv6_not_mapped gs hnm, if_pos hz]
  have hlt_take : ∀ g ∈ gs.take (zeroRun gs).1, g < 65536 :=
    fun g hg => hlt g (List.take_subset _ _ hg)
  have hlt_drop : ∀ g ∈ gs.drop ((zeroRun gs).1 + (zeroRun gs).2), g < 65536 :=
    fun g hg => hlt g (List.drop_subset _ _ hg)
  have hlen_take : (gs.take (zeroRun gs).1).length = (zeroRun gs).1 := by
    rw [List.length_take, hlen]
    omega
  have hlen_drop : (gs.drop ((zeroRun gs).1 + (zeroRun gs).2)).length =
      8 - ((zeroRun gs).1 + (zeroRun gs).2) := by
    rw [List.length_drop, hlen]
  have hdot_rest : '.' ∉ (':' :: ':' ::
      joinColon ((gs.drop ((zeroRun gs).1 + (zeroRun gs).2)).map hexRepr)) := by
    intro hm
    rcases List.mem_cons.1 hm with hc | hm2
    · cases hc
    rcases List.mem_cons.1 hm2 with hc | hm3
    · cases hc
    · exact dot_not_mem_joinColon_hex _ hm3
  have hhead : readGroups 8 0
      (joinColon ((gs.take (zeroRun gs).1).map hexRepr) ++ ':' :: ':' ::
        joinColon ((gs.drop ((zeroRun gs).1 + (zeroRun gs).2)).map hexRepr)) =
      (gs.take (zeroRun gs).1, false, ':' :: ':' ::
        joinColon ((gs.drop ((zeroRun gs).1 + (zeroRun gs).2)).map hexRepr)) := by
    have := readGroups_join (gs.take (zeroRun gs).1) 8 0
      (':' :: ':' :: joinColon ((gs.drop ((zeroRun gs).1 + (zeroRun gs).2)).map hexRepr))
      hlt_take (by rw [hlen_take]; omega) (Or.inr ⟨_, rfl⟩) hdot_rest
    simpa using this
  have htail : readGroups (8 - ((zeroRun gs).1 + 1)) 0
      (joinColon ((gs.drop ((zeroRun gs).1 + (zeroRun gs).2)).map hexRepr)) =
      (gs.drop ((zeroRun gs).1 + (zeroRun gs).2), false, []) := by
    have := readGroups_join (gs.drop ((zeroRun gs).1 + (zeroRun gs).2))
      (8 - ((zeroRun gs).1 + 1)) 0 [] hlt_drop
      (by rw [hlen_drop]; omega) (Or.inl rfl) (by simp)
    simpa using this
  rw [readIpv6Addr]
  rw [hhead]
  simp only [hlen_take]
  rw [if_neg (by omega : ¬ (zeroRun gs).1 = 8)]
  have htail2 : readGroups (7 - (zeroRun gs).1) 0
      (joinColon (List.drop ((zeroRun gs).1 + (zeroRun gs).2)
        (List.map hexRepr gs))) =
      (List.drop ((zeroRun gs).1 + (zeroRun gs).2) gs, false, []) := by
    simpa using htail
  simp [readGivenChar, htail2, hlen_drop]
  have hrep : 8 - (zeroRun gs).1 - (8 - ((zeroRun gs).1 + (zeroRun gs).2)) =
      (zeroRun gs).2 := by omega
  rw [hrep]
  exact (take_replicate_drop gs (zeroRun gs).1 (zeroRun gs).2 (by omega) hzero).symm

theorem readNumber_f_head (l : List Char) :
    readNumber 10 3 255 false ('f' :: l) = none := by
  simp [readNumber, readDigits, show toDigit 'f' 10 = none from rfl]

theorem hexRepr_ffff : hexRepr 65535 = ['f', 'f', 'f', 'f'] := by
  have hd : Nat.digits 16 65535 = [15, 15, 15, 15] := by
    norm_num [Nat.digits_def']
  rw [hexRepr, if_neg (by norm_num), hd]
  rfl

theorem readIpv4Addr_f_head (l : List Char) : readIpv4Addr ('f' :: l) = none := by
  simp [readIpv4Addr, readSeparator, readNumber_f_head]

theorem readIpv6Addr_mapped (g h2 : Nat) (hg : g < 65536) (hh : h2 < 65536) :
    readIpv6Addr (renderIpv6 [0, 0, 0, 0, 0, 65535, g, h2]) =
      some ([0, 0, 0, 0, 0, 65535, g, h2], []) := by
  have hrender : renderIpv6 [0, 0, 0, 0, 0, 65535, g, h2] =
      ':' :: ':' :: 'f' :: 'f' :: 'f' :: 'f' :: ':' ::
        renderIpv4 (g / 256) (g % 256) (h2 / 256) (h2 % 256) := rfl
  have hip4 : readIpv4Addr
      (renderIpv4 (g / 256) (g % 256) (h2 / 256) (h2 % 256)) =
      some ((g / 256, g % 256, h2 / 256, h2 % 256), []) := by
    have := readIpv4Addr_render (g / 256) (g % 256) (h2 / 256) (h2 % 256) []
      (by omega) (by omega) (by omega) (by omega) (hrest_nil 10)
    simpa using this
  have htail : readGroups 7 0 ('f' :: 'f' :: 'f' :: 'f' :: ':' ::
      renderIpv4 (g / 256) (g % 256) (h2 / 256) (h2 % 256)) =
      ([65535, g, h2], true, []) := by
    rw [readGroups]
    have hipfail : readSeparator ':' 0 readIpv4Addr
        ('f' :: 'f' :: 'f' :: 'f' :: ':' ::
          renderIpv4 (g / 256) (g % 256) (h2 / 256) (h2 % 256)) = none := by
      rw [readSeparator_zero]
      exact readIpv4Addr_f_head _
    have hhex : readSeparator ':' 0 (readNumber 16 4 65535 true)
        ('f' :: 'f' :: 'f' :: 'f' :: ':' ::
          renderIpv4 (g / 256) (g % 256) (h2 / 256) (h2 % 256)) =
        some (65535, ':' ::
          renderIpv4 (g / 256) (g % 256) (h2 / 256) (h2 % 256)) := by
      rw [readSeparator_zero]
      have hsh : ('f' :: 'f' :: 'f' :: 'f' :: ':' ::
          renderIpv4 (g / 256) (g % 256) (h2 / 256) (h2 % 256)) =
          hexRepr 65535 ++ (':' ::
            renderIpv4 (g / 256) (g % 256) (h2 / 256) (h2 % 256)) := by
        rw [hexRepr_ffff]
        rfl
      rw [hsh]
      exact readNumber_hexRepr 65535 _ (by norm_num)
        (hrest_cons ':' _ 16 (toDigit_colon 16))
    have hrec : readGroups 6 1 (':' ::
        renderIpv4 (g / 256) (g % 256) (h2 / 256) (h2 % 256)) =
        ([g, h2], true, []) := by
      rw [readGroups]
      have hipv4 : readSeparator ':' 1 readIpv4Addr (':' ::
          renderIpv4 (g / 256) (g % 256) (h2 / 256) (h2 % 256)) =
          some ((g / 256, g % 256, h2 / 256, h2 % 256), []) := by
        rw [readSeparator_colon_cons 1 (by omega)]
        exact hip4
      simp only [show (1 ≤ 5) = True by simp, if_true, hipv4]
      have e1 : g / 256 * 256 + g % 256 = g := by omega
      have e2 : h2 / 256 * 256 + h2 % 256 = h2 := by omega
      rw [e1, e2]
    simp only [show (1 ≤ 6) = True by simp, if_true, hipfail, hhex, hrec]
  rw [hrender, readIpv6Addr]
  have hh0 := readGroups_stop 8 0
    (':' :: ':' :: 'f' :: 'f' :: 'f' :: 'f' :: ':' ::
      renderIpv4 (g / 256) (g % 256) (h2 / 256) (h2 % 256))
    (Or.inr ⟨_, rfl⟩)
  rw [hh0]
  simp [readGivenChar, htail]

/-! ### Assembling the round-trip -/

theorem dot_not_mem_renderIpv6_nonmapped (gs : List Nat)
    (hnm : ∀ g h2, gs ≠ [0, 0, 0, 0, 0, 65535, g, h2]) :
    '.' ∉ renderIpv6 gs := by
  rw [renderIpv6_not_mapped gs hnm]
  split
  · intro hm
    rcases List.mem_append.1 hm with hj | hm2
    · exact dot_not_mem_joinColon_hex _ hj
    rcases List.mem_cons.1 hm2 with hc | hm3
    · cases hc
    rcases List.mem_cons.1 hm3 with hc | hm4
    · cases hc
    · exact dot_not_mem_joinColon_hex _ hm4
  · exact dot_not_mem_joinColon_hex _

theorem readIpAddr_renderIpv6 (gs : List Nat) (hlen : gs.length = 8)
    (hlt : ∀ g ∈ gs, g < 65536) :
    readIpAddr (renderIpv6 gs) = some (IpAddrM.v6 gs, []) := by
  by_cases hm : ∃ g h2, gs = [0, 0, 0, 0, 0, 65535, g, h2]
  · obtain ⟨g, h2, rfl⟩ := hm
    have hg : g < 65536 := hlt g (by simp)
    have hh : h2 < 65536 := hlt h2 (by simp)
    have hv4fail : readIpv4Addr (renderIpv6 [0, 0, 0, 0, 0, 65535, g, h2]) =
        none := readIpv4Addr_colon _
    rw [readIpAddr, hv4fail, readIpv6Addr_mapped g h2 hg hh]
  · push_neg at hm
    have hnm : ∀ g h2, gs ≠ [0, 0, 0, 0, 0, 65535, g, h2] := hm
    have hv4fail : readIpv4Addr (renderIpv6 gs) = none :=
      readIpv4Addr_no_dot _ (dot_not_mem_renderIpv6_nonmapped gs hnm)
    rw [readIpAddr, hv4fail]
    by_cases hz : 1 < (zeroRun gs).2
    · rw [readIpv6Addr_compressed gs hlen hlt hz hnm]
    · rw [readIpv6Addr_uncompressed gs hlen hlt hz hnm]

theorem ipAddrFromStr_renderIp (ip : IpAddrM) (hv : ValidIp ip) :
    ipAddrFromStr (renderIp ip) = some ip := by
  cases ip with
  | v4 a b c d =>
    obtain ⟨ha, hb, hc, hd⟩ := hv
    have h4 : readIpv4Addr (renderIpv4 a b c d) = some ((a, b, c, d), []) := by
      have := readIpv4Addr_render a b c d [] ha hb hc hd (hrest_nil 10)
      simpa using this
    rw [renderIp, ipAddrFromStr, readIpAddr, h4]
  | v6 gs =>
    obtain ⟨hlen, hlt⟩ := hv
    rw [renderIp, ipAddrFromStr, readIpAddr_renderIpv6 gs hlen hlt]

theorem slash_not_mem_renderIpv6 (gs : List Nat) : '/' ∉ renderIpv6 gs := by
  by_cases hm : ∃ g h2, gs = [0, 0, 0, 0, 0, 65535, g, h2]
  · obtain ⟨g, h2, rfl⟩ := hm
    intro hmem
    have hr : renderIpv6 [0, 0, 0, 0, 0, 65535, g, h2] =
        ':' :: ':' :: 'f' :: 'f' :: 'f' :: 'f' :: ':' ::
          renderIpv4 (g / 256) (g % 256) (h2 / 256) (h2 % 256) := rfl
    rw [hr] at hmem
    simp only [List.mem_cons] at hmem
    rcases hmem with hc | hc | hc | hc | hc | hc | hc | hmem2
    all_goals first
    | cases hc
    | exact slash_not_mem_renderIpv4 _ _ _ _ hmem2
  · push_neg at hm
    rw [renderIpv6_not_mapped gs hm]
    split
    · intro hmem
      rcases List.mem_append.1 hmem with hj | hm2
      · exact slash_not_mem_joinColon_hex _ hj
      rcases List.mem_cons.1 hm2 with hc | hm3
      · cases hc
      rcases List.mem_cons.1 hm3 with hc | hm4
      · cases hc
      · exact slash_not_mem_joinColon_hex _ hm4
    · exact slash_not_mem_joinColon_hex _

theorem slash_not_mem_renderIp (ip : IpAddrM) : '/' ∉ renderIp ip := by
  cases ip with
  | v4 a b c d => exact slash_not_mem_renderIpv4 a b c d
  | v6 gs => exact slash_not_mem_renderIpv6 gs

theorem slash_not_mem_decRepr (n : Nat) : '/' ∉ decRepr n := by
  intro h
  rcases mem_decRepr '/' n h with ⟨d, hd, he⟩
  exact (decDigitChar_notSpecial d hd).2.1 he.symm

theorem splitSlash_no_slash (ys : List Char) (hy : '/' ∉ ys) :
    splitSlash ys = [ys] := by
  induction ys with
  | nil => rfl
  | cons c t ih =>
    rw [splitSlash]
    have hc : ¬ c = '/' := fun he => hy (he ▸ List.mem_cons_self c t)
    rw [if_neg hc, ih (fun hm => hy (List.mem_cons_of_mem c hm))]

theorem splitSlash_append (xs ys : List Char) (hx : '/' ∉ xs)
    (hy : '/' ∉ ys) : splitSlash (xs ++ '/' :: ys) = [xs, ys] := by
  induction xs with
  | nil =>
    rw [List.nil_append, splitSlash]
    rw [if_pos rfl, splitSlash_no_slash ys hy]
  | cons c t ih =>
    rw [List.cons_append, splitSlash]
    have hc : ¬ c = '/' := fun he => hx (he ▸ List.mem_cons_self c t)
    rw [if_neg hc, ih (fun hm => hx (List.mem_cons_of_mem c hm))]

theorem u8FromStr_decRepr (n : Nat) (h : n ≤ 255) :
    u8FromStr (decRepr n) = some n := by
  obtain ⟨d0, tl, heq, hd0⟩ : ∃ d0 tl,
      decDigits n = d0 :: tl ∧ d0 < 10 := by
    cases hd : decDigits n with
    | nil => exact absurd hd (decDigits_ne_nil n)
    | cons d0 tl =>
      exact ⟨d0, tl, rfl, decDigits_lt n d0 (hd ▸ List.mem_cons_self d0 tl)⟩
  have hshape : decRepr n = decDigitChar d0 :: tl.map decDigitChar := by
    rw [decRepr_eq, heq, List.map_cons]
  have hne : decDigitChar d0 ≠ '+' := (decDigitChar_notSpecial d0 hd0).2.2.2
  have hdig : (match decRepr n with
      | c :: rest => if c = '+' then rest else decRepr n
      | [] => decRepr n) = decRepr n := by
    conv_lhs => rw [hshape]
    show (if decDigitChar d0 = '+' then List.map decDigitChar tl
          else decDigitChar d0 :: List.map decDigitChar tl) = decRepr n
    rw [if_neg hne, hshape]
  have hmap : ∀ d ∈ decDigits n, toDigit (decDigitChar d) 10 = some d :=
    fun d hd => toDigit_decDigitChar d (decDigits_lt n d hd)
  have hrd : readDigits 10 (decRepr n) = (decDigits n, []) := by
    have := readDigits_append 10 decDigitChar (decDigits n) [] hmap (hrest_nil 10)
    simpa [decRepr_eq] using this
  rw [u8FromStr.eq_def]
  simp only [hdig, hrd]
  have h1 : (decDigits n).isEmpty = false := by
    rw [heq]
    rfl
  simp only [h1, Bool.false_eq_true, if_false, digitsVal_decDigits]
  rw [if_neg (show ¬ 255 < n by omega)]

/-- C9: parsing and canonical rendering are mutually inverse on canonical
forms: building the textual form of any well-formed `AllowedIP`
(address rendered canonically, then `/`, then the prefix) and parsing it
back with `AllowedIP::from_str` returns exactly the original value. -/
theorem allowedIP_render_parse_roundtrip (ip : AllowedIPM)
    (h : ValidAllowedIP ip) :
    allowedIPFromStrL (renderAllowedIP ip) = .ok ip := by
  obtain ⟨hv, hc⟩ := h
  have hsplit : splitSlash (renderAllowedIP ip) =
      [renderIp ip.addr, decRepr ip.cidr] := by
    rw [renderAllowedIP]
    exact splitSlash_append _ _ (slash_not_mem_renderIp ip.addr)
      (slash_not_mem_decRepr ip.cidr)
  have hcidr : ip.cidr ≤ 255 := by
    have hw : ip.addr.width ≤ 128 := by
      cases ip.addr <;> simp [IpAddrM.width]
    omega
  rw [allowedIPFromStrL]
  simp only [hsplit, ipAddrFromStr_renderIp ip.addr hv,
    u8FromStr_decRepr ip.cidr hcidr]
  cases hip : ip.addr with
  | v4 a b c d =>
    rw [hip] at hc
    rw [IpAddrM.width] at hc
    simp only [hip]
    rw [if_pos hc, ← hip]
  | v6 gs =>
    rw [hip] at hc
    rw [IpAddrM.width] at hc
    simp only [hip]
    rw [if_pos hc, ← hip]

/-- Closed instance of the C9 theorem at concrete v4 and v6 values. -/
theorem allowedIP_render_parse_roundtrip_witness :
    allowedIPFromStrL (renderAllowedIP ⟨IpAddrM.v4 10 0 0 0, 24⟩) =
      .ok ⟨IpAddrM.v4 10 0 0 0, 24⟩ ∧
    allowedIPFromStrL
        (renderAllowedIP ⟨IpAddrM.v6 [0, 0, 0, 0, 0, 0, 0, 1], 128⟩) =
      .ok ⟨IpAddrM.v6 [0, 0, 0, 0, 0, 0, 0, 1], 128⟩ := by
  constructor
  · exact allowedIP_render_parse_roundtrip ⟨IpAddrM.v4 10 0 0 0, 24⟩
      ⟨by exact ⟨by omega, by omega, by omega, by omega⟩, by
        simp [IpAddrM.width]⟩
  · exact allowedIP_render_parse_roundtrip ⟨IpAddrM.v6 [0, 0, 0, 0, 0, 0, 0, 1], 128⟩
      ⟨by exact ⟨by simp, by intro g hg; simp at hg; omega⟩, by
        simp [IpAddrM.width]⟩

end Boringtun
